import Mathlib

/-!
The VFS dispatcher of `system/ulib/fs/vfs-dispatcher.cpp`, followed by the
extents of `magenta/pinned_memory_object.h` and the configuration space
access of `kernel/lib/pci/pio.cpp`.

A shallow embedding of `fs::Handler` and `fs::VfsDispatcher`.

* The dispatcher object is a record; every member function is a function from
  the record (and the answers of the environment) to the new record, the list
  of externally visible events it produced, and its return value.
* The environment is everything the file calls but does not define: the
  kernel (`port_.wait`, `wait_async`, `mx_handle_close`), the allocator, the
  thread library and the client callback.  Each of their answers is an
  argument of the embedded function, so a theorem quantifies over all of them.
* Constants and types that come from headers which are not part of the
  sources at hand (`MX_OK`, `ERR_DISPATCHER_DONE`, the signal bits,
  `NAME_MAX`, ...) are fields of `Consts`; the definitions never look at
  their values.
-/

namespace fs

abbrev mx_status_t := Int
abbrev mx_handle_t := Nat
abbrev mx_signals_t := Nat

/-- Values the source takes from headers: status codes, signal bits, the
result `thrd_success` of the thread library and the buffer size `NAME_MAX`. -/
structure Consts where
  MX_OK : mx_status_t
  MX_ERR_NO_MEMORY : mx_status_t
  MX_ERR_NO_RESOURCES : mx_status_t
  MX_ERR_BAD_STATE : mx_status_t
  ERR_DISPATCHER_DONE : mx_status_t
  thrd_success : Int
  MX_EVENT_SIGNALED : mx_signals_t
  MX_CHANNEL_READABLE : mx_signals_t
  MX_CHANNEL_PEER_CLOSED : mx_signals_t
  NAME_MAX : Nat

/-- The values these names have in the Magenta headers (`magenta/errors.h`,
`magenta/types.h`, `mxio/dispatcher.h`) and in the C library.  They serve
as the concrete instance of `Consts`; the theorems hold for every instance
whose failure codes differ from `MX_OK`. -/
def magenta : Consts where
  MX_OK := 0
  MX_ERR_NO_MEMORY := -4
  MX_ERR_NO_RESOURCES := -3
  MX_ERR_BAD_STATE := -20
  ERR_DISPATCHER_DONE := -60
  thrd_success := 0
  MX_EVENT_SIGNALED := 8
  MX_CHANNEL_READABLE := 1
  MX_CHANNEL_PEER_CLOSED := 4
  NAME_MAX := 255

/-- Modelled from the spec: the class `Handler` is declared in
`fs/vfs-dispatcher.h`, which is not among the sources.  The spec gives it an
exclusively owned endpoint, an opaque callback, an opaque cookie and its own
memory identity as the key of its registration.  `key` is the address of the
object, which `SetAsyncCallback` hands to the port
(`(uint64_t)(uintptr_t)this`); `h_` is the owned channel, `none` once `Close`
has released it (the spec: `close()` releases the owned endpoint and is
idempotent). -/
structure Handler where
  key : Nat
  h_ : Option mx_handle_t
  cb_ : Nat
  cookie_ : Nat
deriving DecidableEq, Repr

/-- What a member function does to the outside world, in the order it does it. -/
inductive Event where
  /-- The call `handler->ExecuteCallback(cb_)` on the Handler at `key`, which
  returned `r`.  The member function is defined in the header; it invokes
  the external callback once on the endpoint and the cookie of the Handler. -/
  | ExecuteCallback (key : Nat) (r : mx_status_t)
  /-- The call `handler->ExecuteCloseCallback(cb_)` on the Handler at `key`.
  The member function is defined in the header; it tells the owner of the
  callback that the endpoint is gone. -/
  | ExecuteCloseCallback (key : Nat)
  /-- The call `h_.reset()` closed the open handle `h` of the Handler at `key`. -/
  | handle_close (key : Nat) (h : mx_handle_t)
  /-- The call `handler->SetAsyncCallback(port_)` on the Handler at `key`, which returned `r`. -/
  | SetAsyncCallback (key : Nat) (r : mx_status_t)
  /-- The call `shutdown_event_.wait_async(port_, 0u, MX_EVENT_SIGNALED, MX_WAIT_ASYNC_ONCE)`. -/
  | shutdown_wait_async (r : mx_status_t)
  /-- The call `handlers_.erase(*handler)`. -/
  | erase (key : Nat)
  /-- The call `thrd_create_with_name(&t_[slot], ..., namebuf)`, which returned `r`. -/
  | thrd_create_with_name (slot : Nat) (namebuf : List Char) (r : Int)
  /-- The call `shutdown_event_.signal(0u, MX_EVENT_SIGNALED)`. -/
  | shutdown_signal (r : mx_status_t)
  /-- The call `thrd_join(t_[slot], &rc)`. -/
  | thrd_join (slot : Nat)
deriving DecidableEq, Repr

/-- Modelled from the spec: the class `VfsDispatcher` is declared in
`fs/vfs-dispatcher.h`, which is not among the sources; its members are the
ones the spec lists and the source uses (`pool_size_`, `n_threads_`, `t_`,
`handlers_`, `port_`, `shutdown_event_`).  The record holds them together
with the part of the kernel state the member functions change: `port_` lists
the keys of the one-shot waits that Handlers have pending on the port,
`shutdown_waits` counts the pending one-shot waits of `shutdown_event_` on
the port.  `t_` holds, for every started thread, the name it was created
with. -/
structure VfsDispatcher where
  pool_size_ : Nat
  n_threads_ : Nat
  t_ : List (List Char)
  handlers_ : List Handler
  port_ : List Nat
  shutdown_waits : Nat
deriving DecidableEq, Repr

/-- The events of `Handler::Close()`: `h_.reset()` closes the handle when
there is one, and does nothing otherwise. -/
def Handler.CloseEvents (hd : Handler) : List Event :=
  match hd.h_ with
  | some h => [Event.handle_close hd.key h]
  | none => []

/-- The object after `Handler::Close()`. -/
def Handler.Close (hd : Handler) : Handler := { hd with h_ := none }

/-- The port after `Handler::SetAsyncCallback`: `wait_async` answers `r`; the kernel has
registered a one-shot wait under the Handler's key exactly when `r` is
`MX_OK`. -/
def Handler.SetAsyncCallback (k : Consts) (hd : Handler) (port : List Nat)
    (r : mx_status_t) : List Nat :=
  if r = k.MX_OK then port ++ [hd.key] else port

/-- The function `VfsDispatcher::DisconnectHandler`: the Handler after the call and the
events of the call. -/
def VfsDispatcher.DisconnectHandler (handler : Handler) (need_close_cb : Bool) :
    Handler × List Event :=
  (handler.Close,
   handler.CloseEvents ++
     (if need_close_cb then [Event.ExecuteCloseCallback handler.key] else []))

/-- The Handler a packet key points to: the object of the registry at that
address. -/
def VfsDispatcher.deref (d : VfsDispatcher) (key : Nat) : Option Handler :=
  d.handlers_.find? (fun x => x.key == key)

/-- The block at `free_handler:`: `handlers_.erase(*handler)` takes the node
out of the list; the owning pointer it returns is dropped, which runs
`Handler::~Handler()`, that is `Close()`, on the object. -/
def VfsDispatcher.free_handler (d : VfsDispatcher) (handler : Handler) :
    VfsDispatcher × List Event :=
  ({ d with handlers_ := d.handlers_.eraseP (fun x => x.key == handler.key) },
   Event.erase handler.key :: handler.CloseEvents)

/-- Modelled from the spec: the event `port_.wait` returns, which the spec
gives as `event{key, observed_signal_mask, count}`; its type is declared in
`magenta/syscalls/port.h`, which is not among the sources.  The source reads
`key`, `signal.observed` and `signal.count`; the count is a `uint64_t`, which
the source narrows with the cast `(unsigned)packet.signal.count`. -/
structure mx_port_packet_t where
  key : Nat
  observed : mx_signals_t
  count : Nat
deriving DecidableEq, Repr

/-- The answers of the environment during one iteration of the loop:
the status of `port_.wait` and the packet it delivered, the status of the
`ix`-th call of the callback in this wake-up, the status of re-arming the
Handler and the status of re-arming the shutdown event. -/
structure LoopEnv where
  wait_r : mx_status_t
  packet : mx_port_packet_t
  cb : Nat → mx_status_t
  rearm_r : mx_status_t
  shutdown_r : mx_status_t

def kMaxMessageBatchSize : Nat := 4

/-- The inner `for` loop of `Loop`, with `rem` iterations left before `ix`
reaches the bound: the events, and the status that broke the loop if one
did. -/
def VfsDispatcher.batch (k : Consts) (handler : Handler) (cb : Nat → mx_status_t) :
    Nat → Nat → List Event × Option mx_status_t
  | 0, _ => ([], none)
  | rem + 1, ix =>
    if cb ix ≠ k.MX_OK then
      ([Event.ExecuteCallback handler.key (cb ix)], some (cb ix))
    else
      let rest := VfsDispatcher.batch k handler cb rem (ix + 1)
      (Event.ExecuteCallback handler.key (cb ix) :: rest.1, rest.2)

/-- The events of `m` successive calls of the callback on the Handler at
`key`, the first with index `ix`. -/
def batchEvents (key : Nat) (cb : Nat → mx_status_t) (ix m : Nat) : List Event :=
  (List.range' ix m).map (fun i => Event.ExecuteCallback key (cb i))

/-- One pass through the body of `for (;;)` in `Loop`. -/
structure LoopStep where
  /-- The dispatcher after the pass. -/
  d : VfsDispatcher
  /-- The events of the pass. -/
  events : List Event
  /-- The value `Loop` returns when the pass leaves the function, `none`
  when it goes back to `port_.wait`. -/
  exit : Option mx_status_t
deriving DecidableEq, Repr

/-- The two statements `DisconnectHandler(handler, need_close_cb); goto free_handler;`
after the events `before` of the same pass. -/
def VfsDispatcher.retire (d : VfsDispatcher) (handler : Handler) (need_close_cb : Bool)
    (before : List Event) : LoopStep :=
  let dis := VfsDispatcher.DisconnectHandler handler need_close_cb
  let fr := d.free_handler dis.1
  { d := fr.1, events := before ++ dis.2 ++ fr.2, exit := none }

/-- One iteration of `VfsDispatcher::Loop`, from the return of `port_.wait`
on.  `(unsigned)packet.signal.count` is the count modulo `2 ^ 32`.  The
result is `none` when the iteration dereferences a key that is not the
address of a Handler of the registry. -/
def VfsDispatcher.LoopIter (k : Consts) (d : VfsDispatcher) (e : LoopEnv) : Option LoopStep :=
  if e.wait_r < 0 then
    some { d := d, events := [], exit := some k.MX_OK }
  else if e.packet.observed &&& k.MX_EVENT_SIGNALED ≠ 0 then
    some { d := if e.shutdown_r = k.MX_OK
                then { d with shutdown_waits := d.shutdown_waits + 1 } else d,
           events := [Event.shutdown_wait_async e.shutdown_r],
           exit := some e.shutdown_r }
  else if e.packet.observed &&& k.MX_CHANNEL_READABLE ≠ 0 then
    match d.deref e.packet.key with
    | none => none
    | some handler =>
      let b := VfsDispatcher.batch k handler e.cb
                 (min kMaxMessageBatchSize (e.packet.count % 2 ^ 32)) 0
      match b.2 with
      | some r => some (d.retire handler (decide (r ≠ k.ERR_DISPATCHER_DONE)) b.1)
      | none =>
        if e.rearm_r ≠ k.MX_OK then
          some (d.retire handler true
                  (b.1 ++ [Event.SetAsyncCallback handler.key e.rearm_r]))
        else
          some { d := { d with port_ := handler.SetAsyncCallback k d.port_ e.rearm_r },
                 events := b.1 ++ [Event.SetAsyncCallback handler.key e.rearm_r],
                 exit := none }
  else if e.packet.observed &&& k.MX_CHANNEL_PEER_CLOSED ≠ 0 then
    match d.deref e.packet.key with
    | none => none
    | some handler => some (d.retire handler true [])
  else
    some { d := d, events := [], exit := none }

/-- The statuses the calls of `ExecuteCallback` on the Handler at `key`
returned, in the order of the calls. -/
def callbackResults (key : Nat) (evs : List Event) : List mx_status_t :=
  evs.filterMap (fun ev => match ev with
    | Event.ExecuteCallback k2 r => if k2 = key then some r else none
    | _ => none)

/-- How often `ExecuteCallback` was called on the Handler at `key`. -/
def nExecuteCallback (key : Nat) (evs : List Event) : Nat :=
  (callbackResults key evs).length

/-- How often `ExecuteCloseCallback` was called on the Handler at `key`. -/
def nExecuteCloseCallback (key : Nat) (evs : List Event) : Nat :=
  evs.count (Event.ExecuteCloseCallback key)

/-- How often an open handle of the Handler at `key` was closed. -/
def nHandleClose (key : Nat) (evs : List Event) : Nat :=
  evs.countP (fun ev => match ev with
    | Event.handle_close k2 _ => k2 == key
    | _ => false)

/-- How often `SetAsyncCallback` succeeded on the Handler at `key`. -/
def nArmed (k : Consts) (key : Nat) (evs : List Event) : Nat :=
  evs.count (Event.SetAsyncCallback key k.MX_OK)

/-- The text `snprintf(namebuf, size, ...)` leaves in the buffer: at most
`size - 1` characters of the formatted text (the last byte is the
terminator). -/
def snprintf (size : Nat) (text : List Char) : List Char :=
  text.take (size - 1)

/-- The contents of `namebuf` for the thread created when `n_threads_`
threads are running: `"%s-%u"` of the base name and `n_threads_` when the pool
has more than one thread, `"%s"` of the base name otherwise. -/
def VfsDispatcher.namebuf (k : Consts) (pool_size_ n_threads_ : Nat) (name : List Char) :
    List Char :=
  if pool_size_ > 1 then
    snprintf k.NAME_MAX (name ++ '-' :: (Nat.repr n_threads_).toList)
  else
    snprintf k.NAME_MAX name

/-- The `for` loop of `Start` with `rem` iterations left.  The answer of
the thread library to the creation of the thread in slot `i` under the name
`nb` is `create i nb`. -/
def VfsDispatcher.spawn (k : Consts) (name : List Char) (create : Nat → List Char → Int) :
    Nat → VfsDispatcher → VfsDispatcher × List Event × mx_status_t
  | 0, d => (d, [], k.MX_OK)
  | rem + 1, d =>
    let nb := VfsDispatcher.namebuf k d.pool_size_ d.n_threads_ name
    let r := create d.n_threads_ nb
    if r ≠ k.thrd_success then
      (d, [Event.thrd_create_with_name d.n_threads_ nb r], k.MX_ERR_NO_RESOURCES)
    else
      let rest := VfsDispatcher.spawn k name create rem
                    { d with n_threads_ := d.n_threads_ + 1, t_ := d.t_ ++ [nb] }
      (rest.1, Event.thrd_create_with_name d.n_threads_ nb r :: rest.2.1, rest.2.2)

/-- The function `VfsDispatcher::Start`.  `pool_size_` is a `uint32_t` and
`n_threads_` stays at or below it, so no counter wraps. -/
def VfsDispatcher.Start (k : Consts) (d : VfsDispatcher) (name : List Char)
    (create : Nat → List Char → Int) : VfsDispatcher × List Event × mx_status_t :=
  if d.n_threads_ ≠ 0 then
    (d, [], k.MX_ERR_BAD_STATE)
  else
    VfsDispatcher.spawn k name create d.pool_size_ d

/-- The function `VfsDispatcher::AddVFSHandler`.  `alloc` is the address the
allocation of the Handler returned, `none` when `ac.check()` fails;
`arm_r` is the status of `SetAsyncCallback`.  When arming fails the owning
pointer goes out of scope and `Handler::~Handler()` closes the handle. -/
def VfsDispatcher.AddVFSHandler (k : Consts) (d : VfsDispatcher)
    (h : mx_handle_t) (cb cookie : Nat) (alloc : Option Nat) (arm_r : mx_status_t) :
    VfsDispatcher × List Event × mx_status_t :=
  match alloc with
  | none => (d, [], k.MX_ERR_NO_MEMORY)
  | some addr =>
    let handler : Handler := { key := addr, h_ := some h, cb_ := cb, cookie_ := cookie }
    if arm_r ≠ k.MX_OK then
      (d, Event.SetAsyncCallback addr arm_r :: handler.CloseEvents, arm_r)
    else
      ({ d with handlers_ := d.handlers_ ++ [handler],
                port_ := handler.SetAsyncCallback k d.port_ arm_r },
       [Event.SetAsyncCallback addr arm_r], k.MX_OK)

/-- The events of `VfsDispatcher::~VfsDispatcher()` on the dispatcher `d`:
the body signals the shutdown event (status `signal_r`) and joins the
`n_threads_` threads; then the members are destroyed, and destroying
`handlers_` runs `Handler::~Handler()`, that is `Close()`, on every Handler
still in the list.  Nothing in the destructor or in `Handler::~Handler()`
calls `ExecuteCloseCallback`. -/
def VfsDispatcher.destroy (d : VfsDispatcher) (signal_r : mx_status_t) : List Event :=
  Event.shutdown_signal signal_r ::
    ((List.range d.n_threads_).map Event.thrd_join ++
      d.handlers_.flatMap Handler.CloseEvents)

/-- The Handlers of the registry as `VfsDispatcher::~VfsDispatcher()` leaves
them before their storage is released. -/
def VfsDispatcher.destroyed (d : VfsDispatcher) : List Handler :=
  d.handlers_.map Handler.Close

/-- The answers of the environment during `VfsDispatcher::Create`. -/
structure CreateEnv where
  alloc_dispatcher : Bool
  alloc_threads : Bool
  port_create_r : mx_status_t
  event_create_r : mx_status_t
  wait_async_r : mx_status_t
  thrd_create : Nat → List Char → Int
  signal_r : mx_status_t

/-- The dispatcher `VfsDispatcher::VfsDispatcher(cb, pool_size)` constructs. -/
def VfsDispatcher.new (pool_size : Nat) : VfsDispatcher :=
  { pool_size_ := pool_size, n_threads_ := 0, t_ := [], handlers_ := [],
    port_ := [], shutdown_waits := 0 }

/-- The function `VfsDispatcher::Create`: the dispatcher stored in `*out`
(`none` on failure), the events and the status.  On every failure after the
dispatcher was allocated the owning pointer goes out of scope, which runs
the destructor. -/
def VfsDispatcher.Create (k : Consts) (pool_size : Nat) (e : CreateEnv) :
    Option VfsDispatcher × List Event × mx_status_t :=
  if !e.alloc_dispatcher then (none, [], k.MX_ERR_NO_MEMORY)
  else
    let d0 := VfsDispatcher.new pool_size
    if !e.alloc_threads then (none, d0.destroy e.signal_r, k.MX_ERR_NO_MEMORY)
    else if e.port_create_r ≠ k.MX_OK then (none, d0.destroy e.signal_r, e.port_create_r)
    else if e.event_create_r ≠ k.MX_OK then (none, d0.destroy e.signal_r, e.event_create_r)
    else if e.wait_async_r ≠ k.MX_OK then
      (none, Event.shutdown_wait_async e.wait_async_r :: d0.destroy e.signal_r, e.wait_async_r)
    else
      let d1 : VfsDispatcher := { d0 with shutdown_waits := 1 }
      let s := d1.Start k "VFS Dispatcher".toList e.thrd_create
      if s.2.2 ≠ k.MX_OK then
        (none, Event.shutdown_wait_async e.wait_async_r :: (s.2.1 ++ s.1.destroy e.signal_r),
         s.2.2)
      else
        (some s.1, Event.shutdown_wait_async e.wait_async_r :: s.2.1, k.MX_OK)

/-- The address an event is about, for the events of a Handler. -/
def Event.key : Event → Option Nat
  | Event.ExecuteCallback key _ => some key
  | Event.ExecuteCloseCallback key => some key
  | Event.handle_close key _ => some key
  | Event.SetAsyncCallback key _ => some key
  | Event.erase key => some key
  | _ => none

/-- The dispatcher together with everything that has happened so far. -/
structure Sys where
  d : VfsDispatcher
  trace : List Event
deriving DecidableEq, Repr

/-- The address `addr` is the address of no object that is or was a Handler. -/
def Sys.fresh (s : Sys) (addr : Nat) : Prop :=
  addr ∉ s.d.handlers_.map Handler.key ∧ addr ∉ s.trace.filterMap Event.key

instance (s : Sys) (addr : Nat) : Decidable (s.fresh addr) := by
  unfold Sys.fresh; infer_instance

/-- The steps of the sequential model. -/
inductive Action where
  /-- A call of `AddVFSHandler(h, cb, cookie)` with the answers of the
  allocator and of `wait_async`. -/
  | AddVFSHandler (h : mx_handle_t) (cb cookie : Nat) (alloc : Option Nat)
      (arm_r : mx_status_t)
  /-- A worker returns from `port_.wait` with the packet of a Handler and
  runs one iteration of `Loop`. -/
  | Loop (e : LoopEnv)

/-- One step of the sequential model, `none` when the step cannot happen.

* The allocator returns the address of no object that is or was a Handler
  (addresses are not reused within a run, so an address names one Handler).
* The port delivers a Handler packet only for a pending one-shot wait, which
  the delivery consumes; the packet carries the key of that wait, at least
  one of the two signals the wait was registered for, and not the signal of
  the shutdown event. -/
def Sys.step (k : Consts) (s : Sys) : Action → Option Sys
  | Action.AddVFSHandler h cb cookie alloc arm_r =>
    if ∀ addr ∈ alloc, s.fresh addr then
      let r := s.d.AddVFSHandler k h cb cookie alloc arm_r
      some { d := r.1, trace := s.trace ++ r.2.1 }
    else none
  | Action.Loop e =>
    if 0 ≤ e.wait_r ∧ e.packet.key ∈ s.d.port_ ∧
       e.packet.observed &&& k.MX_EVENT_SIGNALED = 0 ∧
       e.packet.observed &&& (k.MX_CHANNEL_READABLE ||| k.MX_CHANNEL_PEER_CLOSED) ≠ 0 then
      match VfsDispatcher.LoopIter k { s.d with port_ := s.d.port_.erase e.packet.key } e with
      | some st => some { d := st.d, trace := s.trace ++ st.events }
      | none => none
    else none

/-- A run of the sequential model. -/
def Sys.run (k : Consts) : Sys → List Action → Option Sys
  | s, [] => some s
  | s, a :: as =>
    match s.step k a with
    | some s1 => Sys.run k s1 as
    | none => none

/-- The state a dispatcher with no thread and no Handler starts from. -/
def Sys.init (pool_size : Nat) : Sys :=
  { d := VfsDispatcher.new pool_size, trace := [] }

/-- The Handler at `key` has been retired: the loop erased it. -/
def Sys.retired (s : Sys) (key : Nat) : Prop :=
  Event.erase key ∈ s.trace

/-- The endpoint of the Handler at `key` has been closed. -/
def Sys.closed (s : Sys) (key : Nat) : Prop :=
  ∃ h, Event.handle_close key h ∈ s.trace

/-- The invariant of the sequential model: the Handlers of the registry
have pairwise different addresses and open endpoints, the port holds exactly
one wait for each of them and none for any other key, and no Handler that was
erased or closed is in the registry. -/
def Sys.Inv (s : Sys) : Prop :=
  (s.d.handlers_.map Handler.key).Nodup ∧
  (∀ H ∈ s.d.handlers_, H.h_.isSome) ∧
  (∀ key, s.d.port_.count key = if key ∈ s.d.handlers_.map Handler.key then 1 else 0) ∧
  (∀ key, s.retired key ∨ s.closed key → key ∉ s.d.handlers_.map Handler.key)

/-- The dispatcher and the number of its worker threads that are still
inside `Loop`. -/
structure Pool where
  d : VfsDispatcher
  running : Nat
deriving DecidableEq, Repr

/-- A running worker returns from `port_.wait` with the packet of the
shutdown event and runs one iteration of `Loop`; `none` when that cannot
happen.  The port delivers the packet only for a pending one-shot wait of
the event, which the delivery consumes. -/
def Pool.shutdownWake (k : Consts) (p : Pool) (e : LoopEnv) : Option Pool :=
  if 0 < p.running ∧ 0 < p.d.shutdown_waits ∧ 0 ≤ e.wait_r ∧
     e.packet.observed &&& k.MX_EVENT_SIGNALED ≠ 0 then
    match VfsDispatcher.LoopIter k { p.d with shutdown_waits := p.d.shutdown_waits - 1 } e with
    | some st => some { d := st.d, running := if st.exit.isSome then p.running - 1 else p.running }
    | none => none
  else none

/-- One shutdown wake-up after the other. -/
def Pool.shutdownAll (k : Consts) : Pool → List LoopEnv → Option Pool
  | p, [] => some p
  | p, e :: es =>
    match p.shutdownWake k e with
    | some p1 => Pool.shutdownAll k p1 es
    | none => none

/-! ## Concrete inputs -/

/-- Three Handlers at different addresses, each with an open channel. -/
def exH (i : Nat) : Handler :=
  { key := 4096 + 64 * i, h_ := some (7 + i), cb_ := 1, cookie_ := i }

/-- A started dispatcher with one thread and three Handlers, after the port
has delivered the packet of the first Handler. -/
def exD : VfsDispatcher :=
  { pool_size_ := 1, n_threads_ := 1, t_ := ["VFS Dispatcher".toList],
    handlers_ := [exH 0, exH 1, exH 2], port_ := [(exH 1).key, (exH 2).key],
    shutdown_waits := 1 }

/-- A readable wake-up for the first Handler of `exD` with one message,
whose callback answers `ERR_DISPATCHER_DONE`. -/
def exDone : LoopEnv :=
  { wait_r := 0, packet := { key := 4096, observed := 1, count := 1 },
    cb := fun _ => magenta.ERR_DISPATCHER_DONE, rearm_r := 0, shutdown_r := 0 }

/-- A readable wake-up for the first Handler of `exD` whose packet count is
`2 ^ 32`, with a callback that always answers `MX_OK`. -/
def exBig : LoopEnv :=
  { wait_r := 0, packet := { key := 4096, observed := 1, count := 4294967296 },
    cb := fun _ => magenta.MX_OK, rearm_r := 0, shutdown_r := 0 }

/-- A readable wake-up for the first Handler of `exD` whose packet count is
`2 ^ 32`, with a callback that would answer `ERR_DISPATCHER_DONE` on its
first call. -/
def exDoneBig : LoopEnv :=
  { wait_r := 0, packet := { key := 4096, observed := 1, count := 4294967296 },
    cb := fun _ => magenta.ERR_DISPATCHER_DONE, rearm_r := 0, shutdown_r := 0 }

/-- A readable wake-up for the first Handler of `exD` with nine messages,
with a callback that always answers `MX_OK`. -/
def exBusy : LoopEnv :=
  { wait_r := 0, packet := { key := 4096, observed := 1, count := 9 },
    cb := fun _ => magenta.MX_OK, rearm_r := 0, shutdown_r := 0 }

/-- A wake-up for the first Handler of `exD` that reports a closed peer and
nothing to read. -/
def exPeerClosed : LoopEnv :=
  { wait_r := 0, packet := { key := 4096, observed := 4, count := 1 },
    cb := fun _ => magenta.MX_OK, rearm_r := 0, shutdown_r := 0 }

/-- The base name `Create` passes to `Start`. -/
def exBase : List Char := "VFS Dispatcher".toList

/-- A base name of 255 characters. -/
def exLong : List Char := List.replicate 255 'a'

/-- A thread library that creates every thread. -/
def exCreateOk : Nat → List Char → Int := fun _ _ => magenta.thrd_success

/-- A thread library that fails to create the thread in slot 2 (`thrd_error`
is 2 in the C library) and creates every other one. -/
def exCreateFail2 : Nat → List Char → Int := fun i _ => if i = 2 then 2 else magenta.thrd_success

/-- A run of the sequential model: three Handlers are added; a fourth
cannot be armed; the first is woken with nine messages and keeps going, is
woken again and finishes; the second loses its peer. -/
def exRun : List Action :=
  [Action.AddVFSHandler 7 1 0 (some 4096) 0,
   Action.AddVFSHandler 8 1 1 (some 4160) 0,
   Action.AddVFSHandler 9 1 2 (some 4224) 0,
   Action.AddVFSHandler 10 1 3 (some 4288) (-11),
   Action.Loop exBusy,
   Action.Loop exDone,
   Action.Loop { exPeerClosed with packet := { key := 4160, observed := 4, count := 0 } }]

/-- The state the sequential model is in after `exRun`. -/
def exRunEnd : Sys :=
  { d := { pool_size_ := 1, n_threads_ := 0, t_ := [],
           handlers_ := [exH 2], port_ := [4224], shutdown_waits := 0 },
    trace := [Event.SetAsyncCallback 4096 0, Event.SetAsyncCallback 4160 0,
              Event.SetAsyncCallback 4224 0, Event.SetAsyncCallback 4288 (-11),
              Event.handle_close 4288 10,
              Event.ExecuteCallback 4096 0, Event.ExecuteCallback 4096 0,
              Event.ExecuteCallback 4096 0, Event.ExecuteCallback 4096 0,
              Event.SetAsyncCallback 4096 0,
              Event.ExecuteCallback 4096 (-60), Event.handle_close 4096 7, Event.erase 4096,
              Event.handle_close 4160 8, Event.ExecuteCloseCallback 4160, Event.erase 4160] }

/-- A wake-up by the shutdown event, whose re-arming succeeds. -/
def exShutdown : LoopEnv :=
  { wait_r := 0, packet := { key := 0, observed := 8, count := 1 },
    cb := fun _ => magenta.MX_OK, rearm_r := 0, shutdown_r := 0 }

/-- An environment in which `Create` succeeds. -/
def exCreateEnv : CreateEnv :=
  { alloc_dispatcher := true, alloc_threads := true, port_create_r := 0,
    event_create_r := 0, wait_async_r := 0, thrd_create := exCreateOk, signal_r := 0 }

/-- The dispatcher `Create` returns for a pool of two threads in `exCreateEnv`. -/
def exCreated : VfsDispatcher :=
  { pool_size_ := 2, n_threads_ := 2,
    t_ := ["VFS Dispatcher-0".toList, "VFS Dispatcher-1".toList],
    handlers_ := [], port_ := [], shutdown_waits := 1 }

end fs

/-! The class `PinnedMemoryObject::Extent` of `magenta/pinned_memory_object.h`. -/

namespace PinnedMemoryObject

/-- Values the header takes from other headers: the page size and two
status codes. -/
structure Consts where
  PAGE_SIZE : Nat
  MX_OK : Int
  MX_ERR_OUT_OF_RANGE : Int

/-- The values these names have in the Magenta headers for x86-64. -/
def magenta : Consts where
  PAGE_SIZE := 4096
  MX_OK := 0
  MX_ERR_OUT_OF_RANGE := -14

/-- The class `Extent`: its one member `val_`, a `uint64_t`. -/
structure Extent where
  val_ : Nat
deriving DecidableEq, Repr

/-- The constructor `Extent(uint64_t base, size_t pages)`: `val_` is
`base | (pages - 1)`; `none` when `ASSERT(pages > 0 && pages <= PAGE_SIZE)`
fails.  The arguments are 64-bit values. -/
def Extent.new (k : Consts) (base pages : Nat) : Option Extent :=
  if pages > 0 ∧ pages ≤ k.PAGE_SIZE then some { val_ := base ||| (pages - 1) } else none

/-- The member function `base()`: `val_ & ~(PAGE_SIZE - 1)`, the complement
taken in 64 bits (`PAGE_SIZE` is a signed constant, which is sign-extended
to the width of `val_`). -/
def Extent.base (k : Consts) (e : Extent) : Nat :=
  e.val_ &&& (2 ^ 64 - 1 - (k.PAGE_SIZE - 1))

/-- The member function `pages()`: `(val_ & (PAGE_SIZE - 1)) + 1` as a
`size_t`, which has 64 bits in the kernel. -/
def Extent.pages (k : Consts) (e : Extent) : Nat :=
  ((e.val_ &&& (k.PAGE_SIZE - 1)) + 1) % 2 ^ 64

/-- The member function `extend(size_t num_pages)`: the extent after the
call and the status.  The sum `pages() + num_pages` is a `size_t` and
`val_ += num_pages` a `uint64_t`, both modulo `2 ^ 64`. -/
def Extent.extend (k : Consts) (e : Extent) (num_pages : Nat) : Extent × Int :=
  if (e.pages k + num_pages) % 2 ^ 64 > k.PAGE_SIZE then (e, k.MX_ERR_OUT_OF_RANGE)
  else ({ val_ := (e.val_ + num_pages) % 2 ^ 64 }, k.MX_OK)

/-- The extent of one page at address 4096. -/
def exExtent : Extent := { val_ := 4096 }

/-- The largest `size_t`. -/
def exHuge : Nat := 2 ^ 64 - 1

end PinnedMemoryObject

/-! The port I/O shim of `kernel/lib/pci/pio.cpp` (the `ARCH_X86` branch). -/

namespace PCI

/-- Values the source takes from `magenta/types.h`. -/
structure Consts where
  MX_OK : Int
  MX_ERR_INVALID_ARGS : Int

/-- The values these names have in the Magenta headers. -/
def magenta : Consts where
  MX_OK := 0
  MX_ERR_INVALID_ARGS := -10

def kPciConfigAddr : Nat := 0xCF8
def kPciConfigData : Nat := 0xCFC

/-- An access to an I/O port: `outpd(port, val)`, or `inpd(port)` which
returned `val`. -/
inductive PortOp where
  | outpd (port val : Nat)
  | inpd (port val : Nat)
deriving DecidableEq, Repr

/-- The expression `1 << width` on the `int` 1 as the C++ language defines
it, as a 32-bit pattern: `none` when `width` is 32 or more, where the shift
is undefined. -/
def shl_cxx (width : Nat) : Option Nat :=
  if width < 32 then some (2 ^ width) else none

/-- The expression `1 << width` as the x86 instruction `shl` computes it on
a 32-bit operand: the count is taken modulo 32. -/
def shl_x86 (width : Nat) : Option Nat :=
  some (2 ^ (width % 32))

/-- The value of `uint32_t width_mask = (1 << width) - 1` when `1 << width`
has the 32-bit pattern `one_shl`: the subtraction wraps in 32 bits. -/
def width_mask (one_shl : Nat) : Nat :=
  (one_shl + 2 ^ 32 - 1) % 2 ^ 32

/-- The function `PioCfgRead(uint32_t addr, uint32_t* val, size_t width)`:
the status, the value stored in `*val` if one is stored, and the port
accesses.  `shl` gives the meaning of `1 << width`, `tmp_val` is what
`inpd` returns.  The sum `shift + width` is a `size_t`, modulo `2 ^ 64`.
The result is `none` when the call has no defined behaviour. -/
def PioCfgRead (k : Consts) (shl : Nat → Option Nat) (tmp_val : Nat) (addr width : Nat) :
    Option (Int × Option Nat × List PortOp) :=
  let shift := (addr &&& 0x3) * 8
  if (shift + width) % 2 ^ 64 > 32 then
    some (k.MX_ERR_INVALID_ARGS, none, [])
  else
    match shl width with
    | none => none
    | some one_shl =>
      some (k.MX_OK, some ((tmp_val >>> shift) &&& width_mask one_shl),
            [PortOp.outpd kPciConfigAddr addr, PortOp.inpd kPciConfigData tmp_val])

/-- The function `PioCfgWrite(uint32_t addr, uint32_t val, size_t width)`:
the status and the port accesses.  `shl` gives the meaning of `1 << width`,
`tmp_val` is what `inpd` returns.  Every `uint32_t` operation is taken
modulo `2 ^ 32`, the sum `shift + width` modulo `2 ^ 64`.  The result is
`none` when the call has no defined behaviour. -/
def PioCfgWrite (k : Consts) (shl : Nat → Option Nat) (tmp_val : Nat) (addr val width : Nat) :
    Option (Int × List PortOp) :=
  let shift := (addr &&& 0x3) * 8
  if (shift + width) % 2 ^ 64 > 32 then
    some (k.MX_ERR_INVALID_ARGS, [])
  else
    match shl width with
    | none => none
    | some one_shl =>
      let write_mask := (width_mask one_shl <<< shift) % 2 ^ 32
      let val1 := val &&& width_mask one_shl
      let tmp1 := tmp_val &&& (2 ^ 32 - 1 - write_mask)
      let tmp2 := tmp1 ||| ((val1 <<< shift) % 2 ^ 32)
      some (k.MX_OK,
            [PortOp.outpd kPciConfigAddr addr, PortOp.inpd kPciConfigData tmp_val,
             PortOp.outpd kPciConfigData tmp2])

end PCI

namespace fs

/-! ## Lists of Handlers with pairwise different addresses -/

theorem find_key_of_mem (l : List Handler) (H : Handler)
    (hnd : (l.map Handler.key).Nodup) (hH : H ∈ l) :
    l.find? (fun x => x.key == H.key) = some H := by
  induction l with
  | nil => cases hH
  | cons a t ih =>
    rw [List.map_cons, List.nodup_cons] at hnd
    rcases List.mem_cons.mp hH with rfl | hmem
    · simp
    · have hne : a.key ≠ H.key := by
        intro h
        exact hnd.1 (h ▸ List.mem_map_of_mem Handler.key hmem)
      rw [List.find?_cons_of_neg _ (by simpa using hne)]
      exact ih hnd.2 hmem

theorem eraseP_key_mem (l : List Handler) (H : Handler)
    (hnd : (l.map Handler.key).Nodup) (hH : H ∈ l) (x : Handler) :
    x ∈ l.eraseP (fun y => y.key == H.key) ↔ x ∈ l ∧ x.key ≠ H.key := by
  induction l with
  | nil => cases hH
  | cons a t ih =>
    rw [List.map_cons, List.nodup_cons] at hnd
    rcases List.mem_cons.mp hH with rfl | hmem
    · rw [List.eraseP_cons_of_pos (by simp)]
      constructor
      · intro hx
        refine ⟨List.mem_cons_of_mem _ hx, ?_⟩
        intro h
        exact hnd.1 (h ▸ List.mem_map_of_mem Handler.key hx)
      · rintro ⟨hx, hne⟩
        rcases List.mem_cons.mp hx with rfl | hx
        · exact absurd rfl hne
        · exact hx
    · have hne : a.key ≠ H.key := by
        intro h
        exact hnd.1 (h ▸ List.mem_map_of_mem Handler.key hmem)
      rw [List.eraseP_cons_of_neg (by simpa using hne), List.mem_cons, List.mem_cons,
        ih hnd.2 hmem]
      constructor
      · rintro (rfl | ⟨h1, h2⟩)
        · exact ⟨Or.inl rfl, hne⟩
        · exact ⟨Or.inr h1, h2⟩
      · rintro ⟨rfl | h1, h2⟩
        · exact Or.inl rfl
        · exact Or.inr ⟨h1, h2⟩

/-! ## The inner loop -/

theorem batch_spec (k : Consts) (H : Handler) (cb : Nat → mx_status_t) (rem ix : Nat) :
    ∃ m, m ≤ rem ∧
      (VfsDispatcher.batch k H cb rem ix).1 = batchEvents H.key cb ix m ∧
      (∀ i, i + 1 < m → cb (ix + i) = k.MX_OK) ∧
      (((VfsDispatcher.batch k H cb rem ix).2 = none ∧ m = rem ∧
          ∀ i, i < m → cb (ix + i) = k.MX_OK) ∨
       (∃ r, (VfsDispatcher.batch k H cb rem ix).2 = some r ∧ r ≠ k.MX_OK ∧
          0 < m ∧ cb (ix + (m - 1)) = r)) := by
  induction rem generalizing ix with
  | zero =>
    refine ⟨0, le_refl _, ?_, ?_, Or.inl ⟨rfl, rfl, ?_⟩⟩
    · simp [VfsDispatcher.batch, batchEvents]
    · intro i hi; omega
    · intro i hi; omega
  | succ n ih =>
    by_cases hc : cb ix = k.MX_OK
    · obtain ⟨m, hm, hev, hpre, hres⟩ := ih (ix + 1)
      refine ⟨m + 1, by omega, ?_, ?_, ?_⟩
      · simp only [VfsDispatcher.batch, hc, ne_eq, not_true_eq_false, if_false]
        rw [hev]
        simp [batchEvents, List.range'_succ, hc]
      · intro i hi
        rcases i with _ | j
        · simpa using hc
        · have := hpre j (by omega)
          rw [← this]; congr 1; omega
      · rcases hres with ⟨h2, hmn, hall⟩ | ⟨r, h2, hr, hpos, hlast⟩
        · left
          refine ⟨?_, by omega, ?_⟩
          · simp only [VfsDispatcher.batch, hc, ne_eq, not_true_eq_false, if_false]
            exact h2
          · intro i hi
            rcases i with _ | j
            · simpa using hc
            · have := hall j (by omega)
              rw [← this]; congr 1; omega
        · right
          refine ⟨r, ?_, hr, by omega, ?_⟩
          · simp only [VfsDispatcher.batch, hc, ne_eq, not_true_eq_false, if_false]
            exact h2
          · rw [← hlast]; congr 1; omega
    · refine ⟨1, by omega, ?_, ?_, Or.inr ⟨cb ix, ?_, hc, by omega, ?_⟩⟩
      · simp [VfsDispatcher.batch, hc, batchEvents]
      · intro i hi; omega
      · simp [VfsDispatcher.batch, hc]
      · simp

/-! ## One pass of the loop -/

theorem callbackResults_append (key : Nat) (a b : List Event) :
    callbackResults key (a ++ b) = callbackResults key a ++ callbackResults key b := by
  simp [callbackResults, List.filterMap_append]

theorem callbackResults_batchEvents (key : Nat) (cb : Nat → mx_status_t) (ix m : Nat) :
    callbackResults key (batchEvents key cb ix m) = (List.range' ix m).map cb := by
  simp only [callbackResults, batchEvents, List.filterMap_map]
  induction m generalizing ix with
  | zero => simp
  | succ n ih => simp [List.range'_succ, ih (ix + 1)]

theorem callbackResults_CloseEvents (key : Nat) (H : Handler) :
    callbackResults key H.CloseEvents = [] := by
  unfold Handler.CloseEvents callbackResults
  cases H.h_ <;> simp

theorem count_batchEvents (ev : Event) (key : Nat) (cb : Nat → mx_status_t) (ix m : Nat)
    (hev : ∀ r, ev ≠ Event.ExecuteCallback key r) :
    (batchEvents key cb ix m).count ev = 0 := by
  rw [List.count_eq_zero]
  intro hmem
  obtain ⟨i, _, hi⟩ := List.mem_map.mp hmem
  exact hev _ hi.symm

theorem retire_events (d : VfsDispatcher) (H : Handler) (b : Bool) (before : List Event) :
    (d.retire H b before).events =
      before ++ H.CloseEvents ++ (if b then [Event.ExecuteCloseCallback H.key] else []) ++
        [Event.erase H.key] := by
  simp [VfsDispatcher.retire, VfsDispatcher.DisconnectHandler, VfsDispatcher.free_handler,
    Handler.Close, Handler.CloseEvents]

theorem retire_d (d : VfsDispatcher) (H : Handler) (b : Bool) (before : List Event) :
    (d.retire H b before).d =
      { d with handlers_ := d.handlers_.eraseP (fun x => x.key == H.key) } := by
  simp [VfsDispatcher.retire, VfsDispatcher.DisconnectHandler, VfsDispatcher.free_handler,
    Handler.Close]

/-- What one pass of the loop does with a readable packet of the Handler `H`. -/
theorem LoopIter_readable (k : Consts) (d : VfsDispatcher) (e : LoopEnv) (H : Handler)
    (hw : 0 ≤ e.wait_r) (hs : e.packet.observed &&& k.MX_EVENT_SIGNALED = 0)
    (hr : e.packet.observed &&& k.MX_CHANNEL_READABLE ≠ 0)
    (hd : d.deref e.packet.key = some H) :
    ∃ m, m ≤ min kMaxMessageBatchSize (e.packet.count % 2 ^ 32) ∧
      (∀ i, i + 1 < m → e.cb i = k.MX_OK) ∧
      ((m = min kMaxMessageBatchSize (e.packet.count % 2 ^ 32) ∧
          (∀ i, i < m → e.cb i = k.MX_OK) ∧ e.rearm_r = k.MX_OK ∧
          VfsDispatcher.LoopIter k d e = some
            { d := { d with port_ := d.port_ ++ [H.key] },
              events := batchEvents H.key e.cb 0 m ++ [Event.SetAsyncCallback H.key k.MX_OK],
              exit := none }) ∨
       (m = min kMaxMessageBatchSize (e.packet.count % 2 ^ 32) ∧
          (∀ i, i < m → e.cb i = k.MX_OK) ∧ e.rearm_r ≠ k.MX_OK ∧
          VfsDispatcher.LoopIter k d e = some
            (d.retire H true
              (batchEvents H.key e.cb 0 m ++ [Event.SetAsyncCallback H.key e.rearm_r]))) ∨
       (0 < m ∧ e.cb (m - 1) ≠ k.MX_OK ∧
          VfsDispatcher.LoopIter k d e = some
            (d.retire H (decide (e.cb (m - 1) ≠ k.ERR_DISPATCHER_DONE))
              (batchEvents H.key e.cb 0 m)))) := by
  obtain ⟨m, hm, hev, hpre, hres⟩ :=
    batch_spec k H e.cb (min kMaxMessageBatchSize (e.packet.count % 2 ^ 32)) 0
  have hw2 : ¬ e.wait_r < 0 := not_lt.mpr hw
  refine ⟨m, hm, fun i hi => by simpa using hpre i hi, ?_⟩
  rcases hres with ⟨h2, hmn, hall⟩ | ⟨r, h2, hr2, hpos, hlast⟩
  · by_cases hre : e.rearm_r = k.MX_OK
    · left
      refine ⟨hmn, fun i hi => by simpa using hall i hi, hre, ?_⟩
      simp only [VfsDispatcher.LoopIter, hw2, hs, hr, hd, h2, hev, hre, if_false, if_true,
        ne_eq, not_true_eq_false, not_false_eq_true, Handler.SetAsyncCallback]
    · right; left
      refine ⟨hmn, fun i hi => by simpa using hall i hi, hre, ?_⟩
      simp only [VfsDispatcher.LoopIter, hw2, hs, hr, hd, h2, hev, hre, if_false, if_true,
        ne_eq, not_true_eq_false, not_false_eq_true]
  · right; right
    simp only [Nat.zero_add] at hlast
    refine ⟨hpos, by rw [hlast]; exact hr2, ?_⟩
    simp only [VfsDispatcher.LoopIter, hw2, hs, hr, hd, h2, hev, hlast, if_false, if_true,
      ne_eq, not_true_eq_false, not_false_eq_true]

/-- What one pass of the loop does with a packet of the Handler `H` that is
not readable and reports that the peer has closed. -/
theorem LoopIter_peer_closed (k : Consts) (d : VfsDispatcher) (e : LoopEnv) (H : Handler)
    (hw : 0 ≤ e.wait_r) (hs : e.packet.observed &&& k.MX_EVENT_SIGNALED = 0)
    (hr : e.packet.observed &&& k.MX_CHANNEL_READABLE = 0)
    (hp : e.packet.observed &&& k.MX_CHANNEL_PEER_CLOSED ≠ 0)
    (hd : d.deref e.packet.key = some H) :
    VfsDispatcher.LoopIter k d e = some (d.retire H true []) := by
  have hw2 : ¬ e.wait_r < 0 := not_lt.mpr hw
  simp only [VfsDispatcher.LoopIter, hw2, hs, hr, hp, hd, if_false, if_true,
    ne_eq, not_true_eq_false, not_false_eq_true]


theorem count_CloseEvents (ev : Event) (H : Handler)
    (hev : ∀ h, ev ≠ Event.handle_close H.key h) :
    H.CloseEvents.count ev = 0 := by
  rw [List.count_eq_zero]
  unfold Handler.CloseEvents
  cases hh : H.h_ with
  | none => simp
  | some h => simpa using hev h

theorem mem_range_map_cb (cb : Nat → mx_status_t) (m : Nat) (r : mx_status_t) :
    r ∈ (List.range' 0 m).map cb ↔ ∃ i, i < m ∧ cb i = r := by
  simp [List.mem_range']

/-- The events of a retirement, counted. -/
theorem retire_counts (d : VfsDispatcher) (H : Handler) (b : Bool) (cb : Nat → mx_status_t)
    (m : Nat) (mid : List Event) (hmid : mid = [] ∨ ∃ r, mid = [Event.SetAsyncCallback H.key r]) :
    callbackResults H.key (d.retire H b (batchEvents H.key cb 0 m ++ mid)).events
        = (List.range' 0 m).map cb ∧
    nExecuteCloseCallback H.key (d.retire H b (batchEvents H.key cb 0 m ++ mid)).events
        = (if b then 1 else 0) ∧
    Event.erase H.key ∈ (d.retire H b (batchEvents H.key cb 0 m ++ mid)).events := by
  rw [retire_events]
  refine ⟨?_, ?_, by simp⟩
  · simp only [callbackResults_append, callbackResults_batchEvents, callbackResults_CloseEvents]
    rcases hmid with rfl | ⟨r, rfl⟩ <;> cases b <;> simp [callbackResults]
  · simp only [nExecuteCloseCallback, List.count_append]
    rw [count_batchEvents _ _ _ _ _ (by intro r; simp), count_CloseEvents _ _ (by intro h; simp)]
    rcases hmid with rfl | ⟨r, rfl⟩ <;> cases b <;> simp


theorem not_mem_retire (d : VfsDispatcher) (H : Handler) (b : Bool) (before : List Event)
    (hnd : (d.handlers_.map Handler.key).Nodup) (hH : H ∈ d.handlers_) :
    H ∉ (d.retire H b before).d.handlers_ := by
  rw [retire_d]
  intro hmem
  exact ((eraseP_key_mem _ H hnd hH H).mp hmem).2 rfl

theorem deref_of_mem (d : VfsDispatcher) (H : Handler)
    (hnd : (d.handlers_.map Handler.key).Nodup) (hH : H ∈ d.handlers_) :
    d.deref H.key = some H :=
  find_key_of_mem _ H hnd hH

theorem nHandleClose_append (key : Nat) (a b : List Event) :
    nHandleClose key (a ++ b) = nHandleClose key a + nHandleClose key b := by
  simp [nHandleClose, List.countP_append]

theorem nHandleClose_CloseEvents (key : Nat) (H : Handler) :
    nHandleClose key H.CloseEvents = if H.key = key ∧ H.h_.isSome then 1 else 0 := by
  unfold nHandleClose Handler.CloseEvents
  cases hh : H.h_ with
  | none => simp
  | some h =>
    by_cases hk : H.key = key
    · simp [hk, List.countP_cons]
    · simp [hk, List.countP_cons]

theorem nHandleClose_flatMap_of_not_mem (key : Nat) (l : List Handler)
    (hk : key ∉ l.map Handler.key) :
    nHandleClose key (l.flatMap Handler.CloseEvents) = 0 := by
  induction l with
  | nil => simp [nHandleClose]
  | cons a t ih =>
    rw [List.map_cons, List.mem_cons, not_or] at hk
    rw [List.flatMap_cons, nHandleClose_append, ih hk.2, nHandleClose_CloseEvents]
    have : ¬ (a.key = key ∧ a.h_.isSome) := fun h => hk.1 h.1.symm
    simp [this]

theorem nHandleClose_flatMap_of_mem (l : List Handler) (H : Handler)
    (hnd : (l.map Handler.key).Nodup) (hH : H ∈ l) :
    nHandleClose H.key (l.flatMap Handler.CloseEvents) = if H.h_.isSome then 1 else 0 := by
  induction l with
  | nil => cases hH
  | cons a t ih =>
    rw [List.map_cons, List.nodup_cons] at hnd
    rw [List.flatMap_cons, nHandleClose_append, nHandleClose_CloseEvents]
    rcases List.mem_cons.mp hH with rfl | hmem
    · rw [nHandleClose_flatMap_of_not_mem _ _ hnd.1]
      simp
    · have hne : a.key ≠ H.key := by
        intro h
        exact hnd.1 (h ▸ List.mem_map_of_mem Handler.key hmem)
      rw [ih hnd.2 hmem]
      simp [hne]

theorem count_flatMap_CloseEvents (ev : Event) (l : List Handler)
    (hev : ∀ key h, ev ≠ Event.handle_close key h) :
    (l.flatMap Handler.CloseEvents).count ev = 0 := by
  rw [List.count_eq_zero]
  intro hmem
  obtain ⟨a, _, ha⟩ := List.mem_flatMap.mp hmem
  unfold Handler.CloseEvents at ha
  cases hh : a.h_ with
  | none => rw [hh] at ha; simp at ha
  | some h => rw [hh] at ha; simp at ha; exact hev _ _ ha

/-- C2 (amended): the destructor closes the endpoint of every Handler that
is still in the registry, once, and calls no close callback and no callback,
neither of such a Handler nor of any other. -/
theorem C2_teardown_closes_without_close_callback (d : VfsDispatcher) (signal_r : mx_status_t)
    (hnd : (d.handlers_.map Handler.key).Nodup) :
    (∀ H ∈ d.handlers_, ∀ h, H.h_ = some h →
        Event.handle_close H.key h ∈ d.destroy signal_r ∧
        nHandleClose H.key (d.destroy signal_r) = 1) ∧
    (∀ H ∈ d.destroyed, H.h_ = none) ∧
    (∀ key, nExecuteCloseCallback key (d.destroy signal_r) = 0) ∧
    (∀ key, nExecuteCallback key (d.destroy signal_r) = 0) := by
  refine ⟨?_, ?_, ?_, ?_⟩
  · intro H hH h hh
    constructor
    · simp only [VfsDispatcher.destroy, List.mem_cons, List.mem_append, List.mem_flatMap]
      right; right
      exact ⟨H, hH, by simp [Handler.CloseEvents, hh]⟩
    · have h1 : nHandleClose H.key
          (Event.shutdown_signal signal_r :: (List.range d.n_threads_).map Event.thrd_join) = 0 := by
        simp [nHandleClose, List.countP_cons, List.countP_eq_zero]
      have h2 : d.destroy signal_r =
          (Event.shutdown_signal signal_r :: (List.range d.n_threads_).map Event.thrd_join) ++
            d.handlers_.flatMap Handler.CloseEvents := by
        simp [VfsDispatcher.destroy]
      rw [h2, nHandleClose_append, h1, nHandleClose_flatMap_of_mem _ _ hnd hH, hh]
      simp
  · intro H hH
    obtain ⟨a, _, rfl⟩ := List.mem_map.mp hH
    rfl
  · intro key
    simp only [nExecuteCloseCallback, VfsDispatcher.destroy, List.count_cons, List.count_append]
    rw [count_flatMap_CloseEvents _ _ (by intro a b; simp)]
    simp [List.count_eq_zero]
  · intro key
    simp only [nExecuteCallback, List.length_eq_zero, callbackResults, VfsDispatcher.destroy,
      List.filterMap_cons, List.filterMap_append, List.append_eq_nil, List.filterMap_eq_nil_iff]
    refine ⟨?_, ?_⟩
    · intro ev hev
      obtain ⟨i, _, rfl⟩ := List.mem_map.mp hev
      rfl
    · intro ev hev
      obtain ⟨a, _, ha⟩ := List.mem_flatMap.mp hev
      unfold Handler.CloseEvents at ha
      cases hh : a.h_ with
      | none => rw [hh] at ha; simp at ha
      | some h => rw [hh] at ha; simp at ha; subst ha; rfl


/-- C2 (counterexample): the destructor of `exD`, which holds three
Handlers, calls the close callback of the first of them zero times. -/
theorem C2_counterexample :
    exH 0 ∈ exD.handlers_ ∧ nExecuteCloseCallback (exH 0).key (exD.destroy 0) = 0 ∧
    nHandleClose (exH 0).key (exD.destroy 0) = 1 := by
  decide

/-- C2 (witness): the destructor of `exD` closes the endpoint of its second
Handler once and does not call its close callback. -/
theorem C2_teardown_closes_without_close_callback_witness :
    (exD.handlers_.map Handler.key).Nodup ∧
    nHandleClose (exH 1).key (exD.destroy 0) = 1 ∧
    nExecuteCloseCallback (exH 1).key (exD.destroy 0) = 0 :=
  ⟨by decide,
   ((C2_teardown_closes_without_close_callback exD 0 (by decide)).1 (exH 1) (by decide)
      8 (by decide)).2,
   (C2_teardown_closes_without_close_callback exD 0 (by decide)).2.2.1 _⟩


theorem callbackResults_batchEvents_ne (key key2 : Nat) (cb : Nat → mx_status_t) (ix m : Nat)
    (hne : key2 ≠ key) :
    callbackResults key2 (batchEvents key cb ix m) = [] := by
  simp only [callbackResults, batchEvents, List.filterMap_map, List.filterMap_eq_nil_iff]
  intro i _
  simp [hne.symm]

/-- The callback calls of a pass that ends with the retirement of `H`. -/
theorem retire_callbackResults (d : VfsDispatcher) (H : Handler) (b : Bool)
    (cb : Nat → mx_status_t) (m : Nat) (mid : List Event)
    (hmid : mid = [] ∨ ∃ r, mid = [Event.SetAsyncCallback H.key r]) (key2 : Nat) :
    callbackResults key2 (d.retire H b (batchEvents H.key cb 0 m ++ mid)).events =
      if key2 = H.key then (List.range' 0 m).map cb else [] := by
  rw [retire_events]
  simp only [callbackResults_append, callbackResults_CloseEvents]
  by_cases hk : key2 = H.key
  · subst hk
    rw [callbackResults_batchEvents]
    rcases hmid with rfl | ⟨r, rfl⟩ <;> cases b <;> simp [callbackResults]
  · rw [callbackResults_batchEvents_ne _ _ _ _ _ hk]
    rcases hmid with rfl | ⟨r, rfl⟩ <;> cases b <;> simp [callbackResults, hk]

/-- C3 (amended): one pass of the loop over a readable packet of a
registered Handler calls the callback at most 4 times, the calls get the
callback results in order, only the last call can have returned something
other than `MX_OK` (so the pass never calls the callback after a result that
is not continue), and when every call returned `MX_OK` the number of calls is
exactly the minimum of 4 and the packet count cast to `unsigned`, that is the
count modulo `2 ^ 32`; this is the minimum of 4 and the count itself whenever
the count is below `2 ^ 32`.  No other Handler is called. -/
theorem C3_batch_cap (k : Consts) (d : VfsDispatcher) (e : LoopEnv) (H : Handler)
    (hnd : (d.handlers_.map Handler.key).Nodup) (hH : H ∈ d.handlers_)
    (hkey : e.packet.key = H.key) (hw : 0 ≤ e.wait_r)
    (hs : e.packet.observed &&& k.MX_EVENT_SIGNALED = 0)
    (hr : e.packet.observed &&& k.MX_CHANNEL_READABLE ≠ 0) :
    ∃ st, VfsDispatcher.LoopIter k d e = some st ∧
      nExecuteCallback H.key st.events ≤ 4 ∧
      nExecuteCallback H.key st.events ≤ e.packet.count % 2 ^ 32 ∧
      callbackResults H.key st.events =
        (List.range (nExecuteCallback H.key st.events)).map e.cb ∧
      (∀ i, i + 1 < nExecuteCallback H.key st.events → e.cb i = k.MX_OK) ∧
      ((∀ r ∈ callbackResults H.key st.events, r = k.MX_OK) →
        nExecuteCallback H.key st.events = min 4 (e.packet.count % 2 ^ 32)) ∧
      ((∀ r ∈ callbackResults H.key st.events, r = k.MX_OK) → e.packet.count < 2 ^ 32 →
        nExecuteCallback H.key st.events = min 4 e.packet.count) ∧
      (∀ key2, key2 ≠ H.key → nExecuteCallback key2 st.events = 0) := by
  have hd : d.deref e.packet.key = some H := by rw [hkey]; exact deref_of_mem d H hnd hH
  obtain ⟨m, hm, hpre, hcase⟩ := LoopIter_readable k d e H hw hs hr hd
  have hm4 : m ≤ 4 := le_trans hm (min_le_left _ _)
  have hmc : m ≤ e.packet.count % 2 ^ 32 := le_trans hm (min_le_right _ _)
  -- in each case the calls of the callback are the first `m` results
  have key : ∀ st, VfsDispatcher.LoopIter k d e = some st →
      (∀ key2, callbackResults key2 st.events =
        if key2 = H.key then (List.range' 0 m).map e.cb else []) →
      ((∀ i, i < m → e.cb i = k.MX_OK) → m = min 4 (e.packet.count % 2 ^ 32)) →
      ∃ st, VfsDispatcher.LoopIter k d e = some st ∧
      nExecuteCallback H.key st.events ≤ 4 ∧
      nExecuteCallback H.key st.events ≤ e.packet.count % 2 ^ 32 ∧
      callbackResults H.key st.events =
        (List.range (nExecuteCallback H.key st.events)).map e.cb ∧
      (∀ i, i + 1 < nExecuteCallback H.key st.events → e.cb i = k.MX_OK) ∧
      ((∀ r ∈ callbackResults H.key st.events, r = k.MX_OK) →
        nExecuteCallback H.key st.events = min 4 (e.packet.count % 2 ^ 32)) ∧
      ((∀ r ∈ callbackResults H.key st.events, r = k.MX_OK) → e.packet.count < 2 ^ 32 →
        nExecuteCallback H.key st.events = min 4 e.packet.count) ∧
      (∀ key2, key2 ≠ H.key → nExecuteCallback key2 st.events = 0) := by
    intro st hst hres hfull
    have hn : nExecuteCallback H.key st.events = m := by
      simp [nExecuteCallback, hres]
    have hall : (∀ r ∈ callbackResults H.key st.events, r = k.MX_OK) →
        ∀ i, i < m → e.cb i = k.MX_OK := by
      intro h i hi
      apply h
      rw [hres, if_pos rfl]
      exact (mem_range_map_cb _ _ _).mpr ⟨i, hi, rfl⟩
    refine ⟨st, hst, ?_, ?_, ?_, ?_, ?_, ?_, ?_⟩
    · rw [hn]; exact hm4
    · rw [hn]; exact hmc
    · rw [hn, hres, if_pos rfl, List.range_eq_range']
    · rw [hn]; exact hpre
    · intro h; rw [hn]; exact hfull (hall h)
    · intro h hlt
      rw [hn, hfull (hall h), Nat.mod_eq_of_lt hlt]
    · intro key2 hne
      simp [nExecuteCallback, hres, hne]
  rcases hcase with ⟨hmn, hall, hre, hst⟩ | ⟨hmn, hall, hre, hst⟩ | ⟨hpos, hlast, hst⟩
  · refine key _ hst ?_ (fun _ => hmn)
    intro key2
    simp only [callbackResults_append, callbackResults]
    by_cases hk : key2 = H.key
    · subst hk
      have := callbackResults_batchEvents H.key e.cb 0 m
      simp only [callbackResults] at this
      simp [this]
    · have := callbackResults_batchEvents_ne H.key key2 e.cb 0 m hk
      simp only [callbackResults] at this
      simp [this, hk]
  · exact key _ hst
      (retire_callbackResults d H true e.cb m _ (Or.inr ⟨_, rfl⟩)) (fun _ => hmn)
  · refine key _ hst ?_ (fun h => absurd (h (m - 1) (by omega)) hlast)
    intro key2
    have := retire_callbackResults d H (decide (e.cb (m - 1) ≠ k.ERR_DISPATCHER_DONE))
      e.cb m [] (Or.inl rfl) key2
    simpa using this


/-- C3 (counterexample): with a packet count of `2 ^ 32` and a callback that
always answers `MX_OK`, the pass calls the callback zero times, although the
minimum of 4 and the count is 4. -/
theorem C3_counterexample :
    (VfsDispatcher.LoopIter magenta exD exBig).map
        (fun st => nExecuteCallback 4096 st.events) = some 0 ∧
    min 4 exBig.packet.count = 4 := by
  decide

/-- C3 (witness): nine messages, a callback that always continues: four calls. -/
theorem C3_batch_cap_witness :
    (exD.handlers_.map Handler.key).Nodup ∧ exH 0 ∈ exD.handlers_ ∧
    ∃ st, VfsDispatcher.LoopIter magenta exD exBusy = some st ∧
      nExecuteCallback (exH 0).key st.events ≤ 4 ∧
      callbackResults (exH 0).key st.events = [0, 0, 0, 0] := by
  refine ⟨by decide, by decide, ?_⟩
  obtain ⟨st, hst, h4, _, _⟩ := C3_batch_cap magenta exD exBusy (exH 0)
    (by decide) (by decide) (by decide) (by decide) (by decide) (by decide)
  refine ⟨st, hst, h4, ?_⟩
  have : VfsDispatcher.LoopIter magenta exD exBusy = some
      { d := { exD with port_ := exD.port_ ++ [4096] },
        events := batchEvents 4096 exBusy.cb 0 4 ++ [Event.SetAsyncCallback 4096 0],
        exit := none } := by decide
  rw [this] at hst
  cases hst
  decide

theorem nHandleClose_batchEvents (key2 key : Nat) (cb : Nat → mx_status_t) (ix m : Nat) :
    nHandleClose key2 (batchEvents key cb ix m) = 0 := by
  simp only [nHandleClose, batchEvents, List.countP_eq_zero]
  intro ev hev
  obtain ⟨i, _, rfl⟩ := List.mem_map.mp hev
  simp

/-- The handles a pass closes when it ends with the retirement of `H`. -/
theorem retire_nHandleClose (d : VfsDispatcher) (H : Handler) (b : Bool)
    (cb : Nat → mx_status_t) (m : Nat) (mid : List Event)
    (hmid : mid = [] ∨ ∃ r, mid = [Event.SetAsyncCallback H.key r]) :
    nHandleClose H.key (d.retire H b (batchEvents H.key cb 0 m ++ mid)).events =
      if H.h_.isSome then 1 else 0 := by
  rw [retire_events]
  simp only [nHandleClose_append, nHandleClose_batchEvents, nHandleClose_CloseEvents]
  rcases hmid with rfl | ⟨r, rfl⟩ <;> cases b <;> simp [nHandleClose]

theorem retire_port (d : VfsDispatcher) (H : Handler) (b : Bool) (before : List Event) :
    (d.retire H b before).d.port_ = d.port_ := by
  rw [retire_d]

theorem mem_retire_handlers (d : VfsDispatcher) (H : Handler) (b : Bool) (before : List Event)
    (hnd : (d.handlers_.map Handler.key).Nodup) (hH : H ∈ d.handlers_) (x : Handler) :
    x ∈ (d.retire H b before).d.handlers_ ↔ x ∈ d.handlers_ ∧ x.key ≠ H.key := by
  rw [retire_d]
  exact eraseP_key_mem _ H hnd hH x


/-- C4: after one pass of the loop over a readable packet of a registered
Handler `H` with an open endpoint, `H` is still in the registry with its
endpoint open and a new one-shot wait on the port exactly when every call of
the callback in the batch returned `MX_OK` and `SetAsyncCallback` succeeded;
in every other case the endpoint of `H` was closed, `H` is erased from the
registry and the port holds no new wait.  The other Handlers stay as they
were. -/
theorem C4_rearm_or_retire (k : Consts) (d : VfsDispatcher) (e : LoopEnv) (H : Handler)
    (h : mx_handle_t)
    (hnd : (d.handlers_.map Handler.key).Nodup) (hH : H ∈ d.handlers_) (hopen : H.h_ = some h)
    (hkey : e.packet.key = H.key) (hw : 0 ≤ e.wait_r)
    (hs : e.packet.observed &&& k.MX_EVENT_SIGNALED = 0)
    (hr : e.packet.observed &&& k.MX_CHANNEL_READABLE ≠ 0) :
    ∃ st, VfsDispatcher.LoopIter k d e = some st ∧ st.exit = none ∧
      (((∀ r ∈ callbackResults H.key st.events, r = k.MX_OK) ∧ e.rearm_r = k.MX_OK) →
        H ∈ st.d.handlers_ ∧ st.d.handlers_ = d.handlers_ ∧
        nHandleClose H.key st.events = 0 ∧
        st.d.port_ = d.port_ ++ [H.key] ∧ nArmed k H.key st.events = 1) ∧
      (¬ ((∀ r ∈ callbackResults H.key st.events, r = k.MX_OK) ∧ e.rearm_r = k.MX_OK) →
        Event.handle_close H.key h ∈ st.events ∧ nHandleClose H.key st.events = 1 ∧
        Event.erase H.key ∈ st.events ∧
        (∀ x, x ∈ st.d.handlers_ ↔ x ∈ d.handlers_ ∧ x.key ≠ H.key) ∧
        st.d.port_ = d.port_ ∧ nArmed k H.key st.events = 0) := by
  have hd : d.deref e.packet.key = some H := by rw [hkey]; exact deref_of_mem d H hnd hH
  obtain ⟨m, hm, hpre, hcase⟩ := LoopIter_readable k d e H hw hs hr hd
  have hmemclose : ∀ b before, Event.handle_close H.key h ∈ (d.retire H b before).events := by
    intro b before
    rw [retire_events]
    simp [Handler.CloseEvents, hopen]
  have hArmed0 : ∀ b, nArmed k H.key (d.retire H b (batchEvents H.key e.cb 0 m)).events = 0 := by
    intro b
    rw [retire_events]
    simp only [nArmed, List.count_append]
    rw [count_batchEvents _ _ _ _ _ (by intro r; simp), count_CloseEvents _ _ (by intro x; simp)]
    cases b <;> simp
  rcases hcase with ⟨hmn, hall, hre, hst⟩ | ⟨hmn, hall, hre, hst⟩ | ⟨hpos, hlast, hst⟩
  · refine ⟨_, hst, rfl, ?_, ?_⟩
    · intro _
      refine ⟨hH, rfl, ?_, rfl, ?_⟩
      · show nHandleClose H.key
            (batchEvents H.key e.cb 0 m ++ [Event.SetAsyncCallback H.key k.MX_OK]) = 0
        rw [nHandleClose_append, nHandleClose_batchEvents]
        simp [nHandleClose]
      · simp only [nArmed, List.count_append]
        rw [count_batchEvents _ _ _ _ _ (by intro r; simp)]
        simp
    · intro hno
      exfalso
      apply hno
      refine ⟨?_, hre⟩
      intro r hrmem
      simp only [callbackResults_append, callbackResults_batchEvents, List.mem_append] at hrmem
      rcases hrmem with hrmem | hrmem
      · obtain ⟨i, hi, rfl⟩ := (mem_range_map_cb _ _ _).mp hrmem
        exact hall i hi
      · simp [callbackResults] at hrmem
  · refine ⟨_, hst, rfl, fun hyes => absurd hyes.2 hre, ?_⟩
    intro _
    refine ⟨hmemclose _ _, ?_, (retire_counts d H true e.cb m _ (Or.inr ⟨_, rfl⟩)).2.2,
      mem_retire_handlers d H _ _ hnd hH, retire_port d H _ _, ?_⟩
    · rw [retire_nHandleClose d H true e.cb m _ (Or.inr ⟨_, rfl⟩), hopen]; rfl
    · rw [retire_events]
      simp only [nArmed, List.count_append]
      rw [count_batchEvents _ _ _ _ _ (by intro r; simp),
        count_CloseEvents _ _ (by intro x; simp)]
      have hne : Event.SetAsyncCallback H.key e.rearm_r ≠ Event.SetAsyncCallback H.key k.MX_OK := by
        intro heq
        injection heq with _ h2
        exact hre h2
      simp [List.count_cons, hne]
  · have hc := retire_callbackResults d H (decide (e.cb (m - 1) ≠ k.ERR_DISPATCHER_DONE))
      e.cb m [] (Or.inl rfl) H.key
    simp only [List.append_nil, if_true] at hc
    refine ⟨_, hst, rfl, ?_, ?_⟩
    · intro hyes
      exfalso
      apply hlast
      apply hyes.1
      rw [hc]
      exact (mem_range_map_cb _ _ _).mpr ⟨m - 1, by omega, rfl⟩
    · intro _
      have h1 := retire_nHandleClose d H (decide (e.cb (m - 1) ≠ k.ERR_DISPATCHER_DONE))
        e.cb m [] (Or.inl rfl)
      have h2 := (retire_counts d H (decide (e.cb (m - 1) ≠ k.ERR_DISPATCHER_DONE))
        e.cb m [] (Or.inl rfl)).2.2
      simp only [List.append_nil] at h1 h2
      refine ⟨hmemclose _ _, ?_, h2, mem_retire_handlers d H _ _ hnd hH,
        retire_port d H _ _, hArmed0 _⟩
      rw [h1, hopen]; rfl


/-- C4 (witness): nine messages, a callback that always continues and a
successful re-arming keep the first Handler of `exD` registered and armed. -/
theorem C4_rearm_or_retire_witness :
    (exD.handlers_.map Handler.key).Nodup ∧ exH 0 ∈ exD.handlers_ ∧ (exH 0).h_ = some 7 ∧
    ∃ st, VfsDispatcher.LoopIter magenta exD exBusy = some st ∧
      exH 0 ∈ st.d.handlers_ ∧ st.d.port_ = exD.port_ ++ [(exH 0).key] := by
  refine ⟨by decide, by decide, by decide, ?_⟩
  obtain ⟨st, hst, _, hyes, _⟩ := C4_rearm_or_retire magenta exD exBusy (exH 0) 7
    (by decide) (by decide) (by decide) (by decide) (by decide) (by decide) (by decide)
  have hev : VfsDispatcher.LoopIter magenta exD exBusy = some
      { d := { exD with port_ := exD.port_ ++ [4096] },
        events := batchEvents 4096 exBusy.cb 0 4 ++ [Event.SetAsyncCallback 4096 0],
        exit := none } := by decide
  have hok : (∀ r ∈ callbackResults (exH 0).key st.events, r = magenta.MX_OK) ∧
      exBusy.rearm_r = magenta.MX_OK := by
    rw [hev] at hst
    cases hst
    decide
  have h := hyes hok
  exact ⟨st, hst, h.1, h.2.2.2.1⟩

/-- C5: a packet of a registered Handler `H` with an open endpoint that
reports a closed peer, nothing to read and no shutdown makes the pass call no
callback, close the endpoint of `H`, call the close callback of `H` once and
erase `H` from the registry.  Two packets that both report something to read
(and no shutdown) are handled alike whatever else they report, so a packet
that reports a closed peer as well is handled as a readable one. -/
theorem C5_peer_closed (k : Consts) (d : VfsDispatcher) (e : LoopEnv) (H : Handler)
    (h : mx_handle_t)
    (hnd : (d.handlers_.map Handler.key).Nodup) (hH : H ∈ d.handlers_) (hopen : H.h_ = some h)
    (hkey : e.packet.key = H.key) (hw : 0 ≤ e.wait_r)
    (hs : e.packet.observed &&& k.MX_EVENT_SIGNALED = 0)
    (hr : e.packet.observed &&& k.MX_CHANNEL_READABLE = 0)
    (hp : e.packet.observed &&& k.MX_CHANNEL_PEER_CLOSED ≠ 0) :
    (∃ st, VfsDispatcher.LoopIter k d e = some st ∧ st.exit = none ∧
      (∀ key2, nExecuteCallback key2 st.events = 0) ∧
      Event.handle_close H.key h ∈ st.events ∧ nHandleClose H.key st.events = 1 ∧
      nExecuteCloseCallback H.key st.events = 1 ∧
      Event.erase H.key ∈ st.events ∧
      (∀ x, x ∈ st.d.handlers_ ↔ x ∈ d.handlers_ ∧ x.key ≠ H.key)) ∧
    (∀ obs1 obs2 : mx_signals_t,
      obs1 &&& k.MX_EVENT_SIGNALED = 0 → obs1 &&& k.MX_CHANNEL_READABLE ≠ 0 →
      obs1 &&& k.MX_CHANNEL_PEER_CLOSED ≠ 0 →
      obs2 &&& k.MX_EVENT_SIGNALED = 0 → obs2 &&& k.MX_CHANNEL_READABLE ≠ 0 →
      VfsDispatcher.LoopIter k d { e with packet := { e.packet with observed := obs1 } } =
      VfsDispatcher.LoopIter k d { e with packet := { e.packet with observed := obs2 } }) := by
  have hd : d.deref e.packet.key = some H := by rw [hkey]; exact deref_of_mem d H hnd hH
  constructor
  · refine ⟨_, LoopIter_peer_closed k d e H hw hs hr hp hd, rfl, ?_, ?_, ?_, ?_, ?_, ?_⟩
    · intro key2
      have := retire_callbackResults d H true e.cb 0 [] (Or.inl rfl) key2
      simp only [batchEvents, List.range'_zero, List.map_nil, List.nil_append, ite_self] at this
      simp [nExecuteCallback, this]
    · rw [retire_events]; simp [Handler.CloseEvents, hopen]
    · have := retire_nHandleClose d H true e.cb 0 [] (Or.inl rfl)
      simp only [batchEvents, List.range'_zero, List.map_nil, List.nil_append] at this
      rw [this, hopen]; rfl
    · have := (retire_counts d H true e.cb 0 [] (Or.inl rfl)).2.1
      simp only [batchEvents, List.range'_zero, List.map_nil, List.nil_append] at this
      rw [this]; rfl
    · rw [retire_events]; simp
    · exact mem_retire_handlers d H _ _ hnd hH
  · intro obs1 obs2 hs1 hr1 _ hs2 hr2
    simp only [VfsDispatcher.LoopIter, hs1, hr1, hs2, hr2, ne_eq, not_true_eq_false,
      not_false_eq_true, if_true, if_false]

/-- C5 (witness): the first Handler of `exD` and a packet that reports only
a closed peer. -/
theorem C5_peer_closed_witness :
    (exD.handlers_.map Handler.key).Nodup ∧ exH 0 ∈ exD.handlers_ ∧
    exPeerClosed.packet.observed &&& magenta.MX_CHANNEL_READABLE = 0 ∧
    exPeerClosed.packet.observed &&& magenta.MX_CHANNEL_PEER_CLOSED ≠ 0 ∧
    ∃ st, VfsDispatcher.LoopIter magenta exD exPeerClosed = some st ∧
      nExecuteCallback (exH 0).key st.events = 0 ∧
      nExecuteCloseCallback (exH 0).key st.events = 1 ∧
      nHandleClose (exH 0).key st.events = 1 := by
  refine ⟨by decide, by decide, by decide, by decide, ?_⟩
  obtain ⟨st, hst, _, h0, _, h1, h2, _⟩ := (C5_peer_closed magenta exD exPeerClosed (exH 0) 7
    (by decide) (by decide) (by decide) (by decide) (by decide) (by decide) (by decide)
    (by decide)).1
  exact ⟨st, hst, h0 _, h2, h1⟩


/-- The loop of `Start`: it creates threads one after the other until the
bound is reached or a creation fails. -/
theorem spawn_spec (k : Consts) (name : List Char) (create : Nat → List Char → Int)
    (rem : Nat) (d : VfsDispatcher) :
    ∃ j, j ≤ rem ∧
      (∀ i, i < j →
        create (d.n_threads_ + i)
          (VfsDispatcher.namebuf k d.pool_size_ (d.n_threads_ + i) name) = k.thrd_success) ∧
      (VfsDispatcher.spawn k name create rem d).1 =
        { d with n_threads_ := d.n_threads_ + j,
                 t_ := d.t_ ++ (List.range' d.n_threads_ j).map
                        (fun i => VfsDispatcher.namebuf k d.pool_size_ i name) } ∧
      ((j = rem ∧ (VfsDispatcher.spawn k name create rem d).2.2 = k.MX_OK ∧
          (VfsDispatcher.spawn k name create rem d).2.1 =
            (List.range' d.n_threads_ j).map (fun i =>
              Event.thrd_create_with_name i (VfsDispatcher.namebuf k d.pool_size_ i name)
                (create i (VfsDispatcher.namebuf k d.pool_size_ i name)))) ∨
       (j < rem ∧
          create (d.n_threads_ + j)
            (VfsDispatcher.namebuf k d.pool_size_ (d.n_threads_ + j) name) ≠ k.thrd_success ∧
          (VfsDispatcher.spawn k name create rem d).2.2 = k.MX_ERR_NO_RESOURCES ∧
          (VfsDispatcher.spawn k name create rem d).2.1 =
            (List.range' d.n_threads_ (j + 1)).map (fun i =>
              Event.thrd_create_with_name i (VfsDispatcher.namebuf k d.pool_size_ i name)
                (create i (VfsDispatcher.namebuf k d.pool_size_ i name))))) := by
  induction rem generalizing d with
  | zero =>
    refine ⟨0, le_refl _, fun i hi => absurd hi (Nat.not_lt_zero _), ?_, Or.inl ⟨rfl, rfl, ?_⟩⟩
    · simp [VfsDispatcher.spawn]
    · simp [VfsDispatcher.spawn]
  | succ n ih =>
    by_cases hc : create d.n_threads_
        (VfsDispatcher.namebuf k d.pool_size_ d.n_threads_ name) = k.thrd_success
    · obtain ⟨j, hj, hpre, hd, hres⟩ := ih
        { d with n_threads_ := d.n_threads_ + 1,
                 t_ := d.t_ ++ [VfsDispatcher.namebuf k d.pool_size_ d.n_threads_ name] }
      simp only at hpre hd hres
      refine ⟨j + 1, by omega, ?_, ?_, ?_⟩
      · intro i hi
        rcases i with _ | i
        · simpa using hc
        · have := hpre i (by omega)
          rw [show d.n_threads_ + (i + 1) = d.n_threads_ + 1 + i by omega]
          exact this
      · simp only [VfsDispatcher.spawn, hc, ne_eq, not_true_eq_false, if_false]
        rw [hd]
        simp [List.range'_succ, Nat.add_assoc, Nat.add_comm 1 j]
      · rcases hres with ⟨h1, h2, h3⟩ | ⟨h1, h2, h3, h4⟩
        · left
          refine ⟨by omega, ?_, ?_⟩
          · simp only [VfsDispatcher.spawn, hc, ne_eq, not_true_eq_false, if_false]
            exact h2
          · simp only [VfsDispatcher.spawn, hc, ne_eq, not_true_eq_false, if_false]
            rw [h3]
            simp [List.range'_succ, hc]
        · right
          refine ⟨by omega, ?_, ?_, ?_⟩
          · rw [show d.n_threads_ + (j + 1) = d.n_threads_ + 1 + j by omega]
            exact h2
          · simp only [VfsDispatcher.spawn, hc, ne_eq, not_true_eq_false, if_false]
            exact h3
          · simp only [VfsDispatcher.spawn, hc, ne_eq, not_true_eq_false, if_false]
            rw [h4]
            simp [List.range'_succ, hc]
    · refine ⟨0, by omega, fun i hi => absurd hi (Nat.not_lt_zero _), ?_,
        Or.inr ⟨by omega, by simpa using hc, ?_, ?_⟩⟩
      · simp [VfsDispatcher.spawn, hc]
      · simp [VfsDispatcher.spawn, hc]
      · simp [VfsDispatcher.spawn, hc]


theorem Start_of_not_started (k : Consts) (d : VfsDispatcher) (name : List Char)
    (create : Nat → List Char → Int) (h0 : d.n_threads_ = 0) :
    d.Start k name create = VfsDispatcher.spawn k name create d.pool_size_ d := by
  simp [VfsDispatcher.Start, h0]

theorem Start_of_started (k : Consts) (d : VfsDispatcher) (name : List Char)
    (create : Nat → List Char → Int) (h : d.n_threads_ ≠ 0) :
    d.Start k name create = (d, [], k.MX_ERR_BAD_STATE) := by
  simp [VfsDispatcher.Start, h]

theorem snprintf_of_fits (size : Nat) (text : List Char) (h : text.length < size) :
    snprintf size text = text := by
  unfold snprintf
  exact List.take_of_length_le (by omega)

/-- C7 (amended): on a dispatcher that has not been started, `Start` returns
`MX_OK` exactly when all `pool_size_` thread creations succeed, and then
`n_threads_` is `pool_size_`; when creation `j` is the first to fail it
returns `MX_ERR_NO_RESOURCES` after exactly the creations `0, ..., j`, with
`n_threads_ = j`.  In every case `n_threads_` is at most `pool_size_`.  Thread
`i` is created under the name that `snprintf` leaves in `namebuf`: the first
`NAME_MAX - 1` characters of base, `-` and the decimal `i` when the pool has
more than one thread, and of base alone when it has one; this is the whole
text whenever the text is shorter than `NAME_MAX`. -/
theorem C7_start_spawns (k : Consts) (d : VfsDispatcher) (name : List Char)
    (create : Nat → List Char → Int)
    (hk : k.MX_ERR_NO_RESOURCES ≠ k.MX_OK) (h0 : d.n_threads_ = 0) (ht : d.t_ = []) :
    ((d.Start k name create).2.2 = k.MX_OK ↔
      ∀ i, i < d.pool_size_ →
        create i (VfsDispatcher.namebuf k d.pool_size_ i name) = k.thrd_success) ∧
    ((d.Start k name create).2.2 = k.MX_OK →
      (d.Start k name create).1.n_threads_ = d.pool_size_) ∧
    (∀ j, j < d.pool_size_ →
      (∀ i, i < j →
        create i (VfsDispatcher.namebuf k d.pool_size_ i name) = k.thrd_success) →
      create j (VfsDispatcher.namebuf k d.pool_size_ j name) ≠ k.thrd_success →
      (d.Start k name create).2.2 = k.MX_ERR_NO_RESOURCES ∧
      (d.Start k name create).1.n_threads_ = j ∧
      (d.Start k name create).2.1 = (List.range (j + 1)).map (fun i =>
        Event.thrd_create_with_name i (VfsDispatcher.namebuf k d.pool_size_ i name)
          (create i (VfsDispatcher.namebuf k d.pool_size_ i name)))) ∧
    (d.Start k name create).1.n_threads_ ≤ d.pool_size_ ∧
    (d.Start k name create).1.t_ =
      (List.range (d.Start k name create).1.n_threads_).map
        (fun i => VfsDispatcher.namebuf k d.pool_size_ i name) ∧
    (∀ i, 1 < d.pool_size_ →
      VfsDispatcher.namebuf k d.pool_size_ i name =
        (name ++ '-' :: (Nat.repr i).toList).take (k.NAME_MAX - 1)) ∧
    (∀ i, d.pool_size_ = 1 →
      VfsDispatcher.namebuf k d.pool_size_ i name = name.take (k.NAME_MAX - 1)) ∧
    (∀ i, 1 < d.pool_size_ → (name ++ '-' :: (Nat.repr i).toList).length < k.NAME_MAX →
      VfsDispatcher.namebuf k d.pool_size_ i name = name ++ '-' :: (Nat.repr i).toList) ∧
    (∀ i, d.pool_size_ = 1 → name.length < k.NAME_MAX →
      VfsDispatcher.namebuf k d.pool_size_ i name = name) := by
  rw [Start_of_not_started k d name create h0]
  obtain ⟨j, hj, hpre, hd, hres⟩ := spawn_spec k name create d.pool_size_ d
  simp only [h0, ht, Nat.zero_add, List.nil_append] at hpre hd hres
  have hn : (VfsDispatcher.spawn k name create d.pool_size_ d).1.n_threads_ = j := by rw [hd]
  have htl : (VfsDispatcher.spawn k name create d.pool_size_ d).1.t_ =
      (List.range j).map (fun i => VfsDispatcher.namebuf k d.pool_size_ i name) := by
    rw [hd, List.range_eq_range']
  refine ⟨?_, ?_, ?_, by rw [hn]; exact hj, by rw [hn]; exact htl, ?_, ?_, ?_, ?_⟩
  · rcases hres with ⟨h1, h2, _⟩ | ⟨h1, h2, h3, _⟩
    · exact ⟨fun _ i hi => hpre i (h1 ▸ hi), fun _ => h2⟩
    · constructor
      · intro hok; rw [h3] at hok; exact absurd hok hk
      · intro hall; exact absurd (hall j h1) h2
  · intro hok
    rcases hres with ⟨h1, _, _⟩ | ⟨_, _, h3, _⟩
    · rw [hn]; exact h1
    · rw [h3] at hok; exact absurd hok hk
  · intro j2 hj2 hpre2 hfail2
    have hjj : j = j2 := by
      rcases hres with ⟨h1, _, _⟩ | ⟨h1, h2, _, _⟩
      · exact absurd (hpre j2 (h1 ▸ hj2)) hfail2
      · rcases Nat.lt_trichotomy j j2 with hlt | heq | hgt
        · exact absurd (hpre2 j hlt) h2
        · exact heq
        · exact absurd (hpre j2 hgt) hfail2
    subst hjj
    rcases hres with ⟨h1, _, _⟩ | ⟨_, _, h3, h4⟩
    · omega
    · exact ⟨h3, hn, by rw [h4, List.range_eq_range']⟩
  · intro i hP
    simp [VfsDispatcher.namebuf, hP, snprintf]
  · intro i hP
    simp [VfsDispatcher.namebuf, hP, snprintf]
  · intro i hP hlen
    simp only [VfsDispatcher.namebuf, hP, gt_iff_lt, if_true]
    exact snprintf_of_fits _ _ hlen
  · intro i hP hlen
    simp only [VfsDispatcher.namebuf, hP, gt_iff_lt, lt_self_iff_false, if_false]
    exact snprintf_of_fits _ _ hlen

/-- C6 (amended): on a dispatcher with a pool of at least one thread, once a
call of `Start` has returned `MX_OK`, every further call returns
`MX_ERR_BAD_STATE`, creates no thread and leaves the dispatcher, with its
thread count and its threads, as it was. -/
theorem C6_start_once (k : Consts) (d : VfsDispatcher) (name name2 : List Char)
    (create create2 : Nat → List Char → Int)
    (hbad : k.MX_ERR_BAD_STATE ≠ k.MX_OK) (hres : k.MX_ERR_NO_RESOURCES ≠ k.MX_OK)
    (hP : 0 < d.pool_size_)
    (hok : (d.Start k name create).2.2 = k.MX_OK) :
    (d.Start k name create).1.Start k name2 create2 =
      ((d.Start k name create).1, [], k.MX_ERR_BAD_STATE) := by
  have hn : (d.Start k name create).1.n_threads_ ≠ 0 := by
    by_cases h0 : d.n_threads_ = 0
    · rw [Start_of_not_started k d name create h0] at hok ⊢
      obtain ⟨j, hj, hpre, hd, hres2⟩ := spawn_spec k name create d.pool_size_ d
      rcases hres2 with ⟨h1, _, _⟩ | ⟨_, _, h3, _⟩
      · rw [hd]; simp only; omega
      · rw [h3] at hok; exact absurd hok hres
    · exfalso
      simp only [VfsDispatcher.Start, h0, ne_eq, not_false_eq_true, if_true] at hok
      exact hbad hok
  exact Start_of_started k _ name2 create2 hn


/-- C6 (counterexample): on a dispatcher with a pool of zero threads `Start`
returns `MX_OK`, and a second call returns `MX_OK` again, not
`MX_ERR_BAD_STATE`. -/
theorem C6_counterexample :
    ((VfsDispatcher.new 0).Start magenta exBase exCreateOk).2.2 = magenta.MX_OK ∧
    (((VfsDispatcher.new 0).Start magenta exBase exCreateOk).1.Start
        magenta exBase exCreateOk).2.2 = magenta.MX_OK ∧
    magenta.MX_OK ≠ magenta.MX_ERR_BAD_STATE := by
  decide

/-- C6 (witness): a pool of two threads, started once. -/
theorem C6_start_once_witness :
    0 < (VfsDispatcher.new 2).pool_size_ ∧
    ((VfsDispatcher.new 2).Start magenta exBase exCreateOk).2.2 = magenta.MX_OK ∧
    ((VfsDispatcher.new 2).Start magenta exBase exCreateOk).1.Start magenta exBase exCreateOk =
      (((VfsDispatcher.new 2).Start magenta exBase exCreateOk).1, [],
       magenta.MX_ERR_BAD_STATE) :=
  ⟨by decide, by decide,
   C6_start_once magenta (VfsDispatcher.new 2) exBase exBase exCreateOk exCreateOk
     (by decide) (by decide) (by decide) (by decide)⟩

set_option maxRecDepth 100000 in
/-- C7 (counterexample): with a base name of 255 characters and a pool of
two threads, thread 0 is created under a name of 254 characters, which is not
the base name followed by `-0` (257 characters). -/
theorem C7_counterexample :
    ((VfsDispatcher.new 2).Start magenta exLong exCreateOk).1.t_.map List.length = [254, 254] ∧
    (exLong ++ '-' :: (Nat.repr 0).toList).length = 257 := by
  decide

/-- C7 (witness): a pool of three threads whose third creation fails. -/
theorem C7_start_spawns_witness :
    magenta.MX_ERR_NO_RESOURCES ≠ magenta.MX_OK ∧ (VfsDispatcher.new 3).n_threads_ = 0 ∧
    ((VfsDispatcher.new 3).Start magenta exBase exCreateFail2).2.2 =
      magenta.MX_ERR_NO_RESOURCES ∧
    ((VfsDispatcher.new 3).Start magenta exBase exCreateFail2).1.n_threads_ = 2 ∧
    ((VfsDispatcher.new 3).Start magenta exBase exCreateFail2).1.t_ =
      ["VFS Dispatcher-0".toList, "VFS Dispatcher-1".toList] := by
  have h := C7_start_spawns magenta (VfsDispatcher.new 3) exBase exCreateFail2
    (by decide) rfl rfl
  have h2 := h.2.2.1 2 (by decide) (by decide) (by decide)
  exact ⟨by decide, rfl, h2.1, h2.2.1, by decide⟩


/-- C8: `AddVFSHandler` returns `MX_ERR_NO_MEMORY` when the allocation of the
Handler fails and the status of `SetAsyncCallback` when arming fails, and in
both cases leaves the dispatcher, with its registry and its port, as it was;
when it returns `MX_OK` the allocation gave an address, the registry is the
old one followed by one Handler at that address with the given endpoint,
callback and cookie, `SetAsyncCallback` was called on it once and succeeded,
and the port holds one more wait, under its key. -/
theorem C8_add_handler (k : Consts) (d : VfsDispatcher) (h : mx_handle_t) (cb cookie : Nat)
    (alloc : Option Nat) (arm_r : mx_status_t)
    (hmem : k.MX_ERR_NO_MEMORY ≠ k.MX_OK) :
    (alloc = none →
      d.AddVFSHandler k h cb cookie alloc arm_r = (d, [], k.MX_ERR_NO_MEMORY)) ∧
    (∀ addr, alloc = some addr → arm_r ≠ k.MX_OK →
      (d.AddVFSHandler k h cb cookie alloc arm_r).2.2 = arm_r ∧
      (d.AddVFSHandler k h cb cookie alloc arm_r).1 = d) ∧
    ((d.AddVFSHandler k h cb cookie alloc arm_r).2.2 ≠ k.MX_OK →
      (d.AddVFSHandler k h cb cookie alloc arm_r).1 = d) ∧
    ((d.AddVFSHandler k h cb cookie alloc arm_r).2.2 = k.MX_OK →
      ∃ addr, alloc = some addr ∧ arm_r = k.MX_OK ∧
        (d.AddVFSHandler k h cb cookie alloc arm_r).1.handlers_ =
          d.handlers_ ++ [{ key := addr, h_ := some h, cb_ := cb, cookie_ := cookie }] ∧
        (d.AddVFSHandler k h cb cookie alloc arm_r).1.port_ = d.port_ ++ [addr] ∧
        (d.AddVFSHandler k h cb cookie alloc arm_r).2.1 = [Event.SetAsyncCallback addr k.MX_OK] ∧
        nArmed k addr (d.AddVFSHandler k h cb cookie alloc arm_r).2.1 = 1 ∧
        nHandleClose addr (d.AddVFSHandler k h cb cookie alloc arm_r).2.1 = 0) ∧
    ((∃ addr, alloc = some addr) → arm_r = k.MX_OK →
      (d.AddVFSHandler k h cb cookie alloc arm_r).2.2 = k.MX_OK) := by
  cases alloc with
  | none =>
    refine ⟨fun _ => rfl, fun addr h1 => (by cases h1), fun _ => rfl, ?_, ?_⟩
    · intro hok
      exact absurd hok hmem
    · rintro ⟨addr, h1⟩; cases h1
  | some a =>
    by_cases harm : arm_r = k.MX_OK
    · refine ⟨fun h1 => (by cases h1), fun addr _ h2 => absurd harm h2, ?_, ?_, ?_⟩
      · intro hne
        exfalso; apply hne
        simp [VfsDispatcher.AddVFSHandler, harm]
      · intro _
        refine ⟨a, rfl, harm, ?_, ?_, ?_, ?_, ?_⟩ <;>
          simp [VfsDispatcher.AddVFSHandler, harm, Handler.SetAsyncCallback, nArmed,
            nHandleClose]
      · intro _ _
        simp [VfsDispatcher.AddVFSHandler, harm]
    · refine ⟨fun h1 => (by cases h1), ?_, ?_, ?_, fun _ h2 => absurd h2 harm⟩
      · intro addr _ _
        simp [VfsDispatcher.AddVFSHandler, harm]
      · intro _
        simp [VfsDispatcher.AddVFSHandler, harm]
      · intro hok
        exfalso
        simp [VfsDispatcher.AddVFSHandler, harm] at hok

/-- C8 (witness): a fourth Handler is added to `exD`. -/
theorem C8_add_handler_witness :
    magenta.MX_ERR_NO_MEMORY ≠ magenta.MX_OK ∧
    exD.AddVFSHandler magenta 10 1 3 none 0 = (exD, [], magenta.MX_ERR_NO_MEMORY) ∧
    (exD.AddVFSHandler magenta 10 1 3 (some 4288) 0).1.handlers_ =
      exD.handlers_ ++ [exH 3] :=
  ⟨by decide,
   (C8_add_handler magenta exD 10 1 3 none 0 (by decide)).1 rfl,
   by
     obtain ⟨addr, ha, _, hh, _⟩ :=
       (C8_add_handler magenta exD 10 1 3 (some 4288) 0 (by decide)).2.2.2.1 (by decide)
     cases ha
     exact hh⟩


/-! ## The sequential model -/

theorem map_key_eraseP (l : List Handler) (H : Handler)
    (hnd : (l.map Handler.key).Nodup) (hH : H ∈ l) (key : Nat) :
    key ∈ (l.eraseP (fun y => y.key == H.key)).map Handler.key ↔
      key ∈ l.map Handler.key ∧ key ≠ H.key := by
  simp only [List.mem_map]
  constructor
  · rintro ⟨x, hx, rfl⟩
    have := (eraseP_key_mem l H hnd hH x).mp hx
    exact ⟨⟨x, this.1, rfl⟩, this.2⟩
  · rintro ⟨⟨x, hx, rfl⟩, hne⟩
    exact ⟨x, (eraseP_key_mem l H hnd hH x).mpr ⟨hx, hne⟩, rfl⟩

theorem Inv_init (P : Nat) : (Sys.init P).Inv := by
  refine ⟨by simp [Sys.init, VfsDispatcher.new], ?_, ?_, ?_⟩
  · intro H hH; simp [Sys.init, VfsDispatcher.new] at hH
  · intro key; simp [Sys.init, VfsDispatcher.new]
  · intro key hk
    rcases hk with hk | ⟨h, hk⟩ <;> simp [Sys.retired, Sys.init] at hk

/-- The invariant after a retirement of `H`, whose wait the port has
delivered. -/
theorem Inv_retire (s : Sys) (H : Handler) (b : Bool) (before : List Event)
    (hinv : s.Inv) (hH : H ∈ s.d.handlers_)
    (hbefore : ∀ key, Event.erase key ∉ before ∧ ∀ h, Event.handle_close key h ∉ before) :
    Sys.Inv
      { d := (VfsDispatcher.retire { s.d with port_ := s.d.port_.erase H.key } H b before).d,
        trace := s.trace ++
          (VfsDispatcher.retire { s.d with port_ := s.d.port_.erase H.key } H b before).events } := by
  obtain ⟨hnd, hopen, hport, hret⟩ := hinv
  rw [retire_d, retire_events]
  have hmem := map_key_eraseP s.d.handlers_ H hnd hH
  refine ⟨?_, ?_, ?_, ?_⟩
  · exact List.Nodup.sublist (List.Sublist.map _ (List.eraseP_sublist _)) hnd
  · intro x hx
    exact hopen x ((eraseP_key_mem _ H hnd hH x).mp hx).1
  · intro key
    show (s.d.port_.erase H.key).count key = _
    by_cases hk : key = H.key
    · subst hk
      have h1 : s.d.port_.count H.key = 1 := by
        rw [hport, if_pos (List.mem_map_of_mem Handler.key hH)]
      have h2 : ¬ (H.key ∈ (s.d.handlers_.eraseP (fun y => y.key == H.key)).map Handler.key) := by
        rw [hmem]; simp
      rw [List.count_erase_self, h1]
      simp only at h2 ⊢
      rw [if_neg h2]
    · rw [List.count_erase_of_ne hk, hport]
      by_cases hin : key ∈ s.d.handlers_.map Handler.key
      · have : key ∈ (s.d.handlers_.eraseP (fun y => y.key == H.key)).map Handler.key :=
          (hmem key).mpr ⟨hin, hk⟩
        simp only at this ⊢
        rw [if_pos hin, if_pos this]
      · have : ¬ key ∈ (s.d.handlers_.eraseP (fun y => y.key == H.key)).map Handler.key :=
          fun h => hin ((hmem key).mp h).1
        simp only at this ⊢
        rw [if_neg hin, if_neg this]
  · intro key hk
    show key ∉ (s.d.handlers_.eraseP (fun y => y.key == H.key)).map Handler.key
    rw [hmem]
    rintro ⟨hin, hne⟩
    have hold : ¬ (Sys.retired s key ∨ Sys.closed s key) := fun h => hret key h hin
    apply hold
    rcases hk with hk | ⟨h, hk⟩
    · left
      simp only [Sys.retired, List.mem_append, List.mem_cons, List.mem_singleton] at hk
      rcases hk with hk | hk
      · exact hk
      · exfalso
        rcases hk with ((hk | hk) | hk) | hk
        · exact (hbefore key).1 hk
        · unfold Handler.CloseEvents at hk
          cases hh : H.h_ <;> rw [hh] at hk <;> simp at hk
        · cases b <;> simp at hk
        · simp at hk
          exact hne hk
    · right
      refine ⟨h, ?_⟩
      simp only [List.mem_append, List.mem_cons, List.mem_singleton] at hk
      rcases hk with hk | hk
      · exact hk
      · exfalso
        rcases hk with ((hk | hk) | hk) | hk
        · exact (hbefore key).2 h hk
        · unfold Handler.CloseEvents at hk
          cases hh : H.h_ <;> rw [hh] at hk <;> simp at hk
          exact hne hk.1
        · cases b <;> simp at hk
        · simp at hk


theorem batchEvents_no_erase_close (key0 : Nat) (cb : Nat → mx_status_t) (m : Nat)
    (mid : List Event) (hmid : mid = [] ∨ ∃ r, mid = [Event.SetAsyncCallback key0 r])
    (key : Nat) :
    Event.erase key ∉ batchEvents key0 cb 0 m ++ mid ∧
    ∀ h, Event.handle_close key h ∉ batchEvents key0 cb 0 m ++ mid := by
  constructor
  · intro hmem
    rcases List.mem_append.mp hmem with h1 | h1
    · obtain ⟨i, _, hi⟩ := List.mem_map.mp h1
      cases hi
    · rcases hmid with rfl | ⟨r, rfl⟩ <;> simp at h1
  · intro h hmem
    rcases List.mem_append.mp hmem with h1 | h1
    · obtain ⟨i, _, hi⟩ := List.mem_map.mp h1
      cases hi
    · rcases hmid with rfl | ⟨r, rfl⟩ <;> simp at h1

theorem Inv_add (k : Consts) (s : Sys) (h : mx_handle_t) (cb cookie : Nat)
    (alloc : Option Nat) (arm_r : mx_status_t)
    (hinv : s.Inv) (hfresh : ∀ addr ∈ alloc, s.fresh addr) :
    Sys.Inv { d := (s.d.AddVFSHandler k h cb cookie alloc arm_r).1,
              trace := s.trace ++ (s.d.AddVFSHandler k h cb cookie alloc arm_r).2.1 } := by
  obtain ⟨hnd, hopen, hport, hret⟩ := hinv
  cases alloc with
  | none =>
    simp only [VfsDispatcher.AddVFSHandler, List.append_nil]
    exact ⟨hnd, hopen, hport, hret⟩
  | some a =>
    obtain ⟨hf1, hf2⟩ := hfresh a rfl
    have hnotrace : ∀ ev ∈ s.trace, ev.key ≠ some a := by
      intro ev hev heq
      exact hf2 (List.mem_filterMap.mpr ⟨ev, hev, heq⟩)
    by_cases harm : arm_r = k.MX_OK
    · simp only [VfsDispatcher.AddVFSHandler, harm, ne_eq, not_true_eq_false, if_false,
        Handler.SetAsyncCallback, if_true]
      refine ⟨?_, ?_, ?_, ?_⟩
      · simp only [List.map_append, List.map_cons, List.map_nil]
        rw [List.nodup_append]
        refine ⟨hnd, by simp, ?_⟩
        intro x hx1 hx2
        simp only [List.mem_singleton] at hx2
        subst hx2
        exact hf1 hx1
      · intro H hH
        rcases List.mem_append.mp hH with h1 | h1
        · exact hopen H h1
        · simp only [List.mem_singleton] at h1
          subst h1; rfl
      · intro key
        simp only [List.count_append, List.map_append, List.map_cons, List.map_nil,
          List.mem_append, List.mem_singleton, hport]
        by_cases hk : key = a
        · subst hk
          simp [hf1]
        · have : ¬ a = key := fun h => hk h.symm
          by_cases hin : key ∈ s.d.handlers_.map Handler.key
          · simp only [List.mem_map] at hin
            simp [hin, hk, List.count_cons, this]
          · simp only [List.mem_map] at hin
            simp [hin, hk, List.count_cons, this]
      · intro key hk
        have hold : Sys.retired s key ∨ Sys.closed s key := by
          rcases hk with hk | ⟨x, hk⟩
          · left
            simpa [Sys.retired] using hk
          · right
            refine ⟨x, ?_⟩
            simpa using hk
        have hne : key ≠ a := by
          rintro rfl
          rcases hold with ho | ⟨x, ho⟩
          · exact hnotrace _ ho rfl
          · exact hnotrace _ ho rfl
        have := hret key hold
        simp only [List.map_append, List.map_cons, List.map_nil, List.mem_append,
          List.mem_singleton, not_or]
        exact ⟨this, hne⟩
    · simp only [VfsDispatcher.AddVFSHandler, harm, ne_eq, not_false_eq_true, if_true]
      refine ⟨hnd, hopen, hport, ?_⟩
      intro key hk
      by_cases hka : key = a
      · subst hka; exact hf1
      · apply hret key
        rcases hk with hk | ⟨x, hk⟩
        · left
          simpa [Sys.retired, Handler.CloseEvents] using hk
        · right
          refine ⟨x, ?_⟩
          simp only [Handler.CloseEvents, List.mem_append, List.mem_cons,
            List.mem_singleton, reduceCtorEq, false_or, Event.handle_close.injEq,
            List.not_mem_nil, or_false] at hk
          rcases hk with hk | hk
          · exact hk
          · exact absurd hk.1 hka


theorem Inv_loop (k : Consts) (s : Sys) (e : LoopEnv) (st : LoopStep)
    (hinv : s.Inv) (hw : 0 ≤ e.wait_r) (hkey : e.packet.key ∈ s.d.port_)
    (hs : e.packet.observed &&& k.MX_EVENT_SIGNALED = 0)
    (hsig : e.packet.observed &&& (k.MX_CHANNEL_READABLE ||| k.MX_CHANNEL_PEER_CLOSED) ≠ 0)
    (hst : VfsDispatcher.LoopIter k { s.d with port_ := s.d.port_.erase e.packet.key } e
      = some st) :
    Sys.Inv { d := st.d, trace := s.trace ++ st.events } := by
  have hinv0 := hinv
  obtain ⟨hnd, hopen, hport, hret⟩ := hinv
  have hin : e.packet.key ∈ s.d.handlers_.map Handler.key := by
    by_contra hnot
    have := hport e.packet.key
    rw [if_neg hnot] at this
    exact (List.count_eq_zero.mp this) hkey
  obtain ⟨H, hH, hHk⟩ := List.mem_map.mp hin
  have hd : VfsDispatcher.deref { s.d with port_ := s.d.port_.erase e.packet.key }
      e.packet.key = some H := by
    rw [← hHk]; exact find_key_of_mem _ H hnd hH
  have hretire : ∀ b before,
      (∀ key, Event.erase key ∉ before ∧ ∀ h, Event.handle_close key h ∉ before) →
      st = VfsDispatcher.retire { s.d with port_ := s.d.port_.erase e.packet.key } H b before →
      Sys.Inv { d := st.d, trace := s.trace ++ st.events } := by
    intro b before hb heq
    rw [heq, ← hHk]
    exact Inv_retire s H b before hinv0 hH hb
  by_cases hr : e.packet.observed &&& k.MX_CHANNEL_READABLE = 0
  · by_cases hp : e.packet.observed &&& k.MX_CHANNEL_PEER_CLOSED = 0
    · exfalso
      apply hsig
      rw [Nat.and_or_distrib_left, hr, hp]
      rfl
    · rw [LoopIter_peer_closed k _ e H hw hs hr hp hd] at hst
      exact hretire true [] (by intro key; simp) (Option.some.inj hst).symm
  · obtain ⟨m, _, _, hcase⟩ := LoopIter_readable k _ e H hw hs hr hd
    rcases hcase with ⟨_, _, _, h2⟩ | ⟨_, _, _, h2⟩ | ⟨_, _, h2⟩
    · rw [h2] at hst
      have heq := (Option.some.inj hst).symm
      subst heq
      refine ⟨hnd, hopen, ?_, ?_⟩
      · intro key
        show ((s.d.port_.erase e.packet.key) ++ [H.key]).count key = _
        rw [List.count_append, ← hport key, hHk]
        by_cases hk : key = e.packet.key
        · subst hk
          rw [List.count_erase_self]
          have : 0 < s.d.port_.count e.packet.key := List.count_pos_iff.mpr hkey
          simp
          omega
        · rw [List.count_erase_of_ne hk]
          have : ¬ e.packet.key = key := fun h => hk h.symm
          simp [List.count_cons, this]
      · intro key hk
        apply hret key
        have hb := batchEvents_no_erase_close H.key e.cb m
          [Event.SetAsyncCallback H.key k.MX_OK] (Or.inr ⟨_, rfl⟩) key
        rcases hk with hk | ⟨x, hk⟩
        · left
          rcases List.mem_append.mp hk with h1 | h1
          · exact h1
          · exact absurd h1 hb.1
        · right
          rcases List.mem_append.mp hk with h1 | h1
          · exact ⟨x, h1⟩
          · exact absurd h1 (hb.2 x)
    · rw [h2] at hst
      exact hretire true _
        (batchEvents_no_erase_close H.key e.cb m _ (Or.inr ⟨_, rfl⟩))
        (Option.some.inj hst).symm
    · rw [h2] at hst
      refine hretire _ (batchEvents H.key e.cb 0 m) ?_ (Option.some.inj hst).symm
      intro key
      have := batchEvents_no_erase_close H.key e.cb m [] (Or.inl rfl) key
      simpa using this

theorem Inv_step (k : Consts) (s s1 : Sys) (a : Action) (hinv : s.Inv)
    (hstep : s.step k a = some s1) : s1.Inv := by
  cases a with
  | AddVFSHandler h cb cookie alloc arm_r =>
    simp only [Sys.step] at hstep
    split at hstep
    · rename_i hfresh
      cases hstep
      exact Inv_add k s h cb cookie alloc arm_r hinv hfresh
    · cases hstep
  | Loop e =>
    simp only [Sys.step] at hstep
    split at hstep
    · rename_i hpre
      obtain ⟨hw, hkey, hs, hsig⟩ := hpre
      split at hstep
      · rename_i st hst
        cases hstep
        exact Inv_loop k s e st hinv hw hkey hs hsig hst
      · cases hstep
    · cases hstep

theorem Inv_run (k : Consts) (actions : List Action) (s s1 : Sys) (hinv : s.Inv)
    (hrun : Sys.run k s actions = some s1) : s1.Inv := by
  induction actions generalizing s with
  | nil =>
    simp only [Sys.run] at hrun
    cases hrun
    exact hinv
  | cons a as ih =>
    simp only [Sys.run] at hrun
    split at hrun
    · rename_i s2 hs2
      exact ih s2 (Inv_step k s s2 a hinv hs2) hrun
    · cases hrun

theorem LoopIter_shutdown (k : Consts) (d : VfsDispatcher) (e : LoopEnv)
    (hw : 0 ≤ e.wait_r) (hs : e.packet.observed &&& k.MX_EVENT_SIGNALED ≠ 0) :
    VfsDispatcher.LoopIter k d e = some
      { d := if e.shutdown_r = k.MX_OK
             then { d with shutdown_waits := d.shutdown_waits + 1 } else d,
        events := [Event.shutdown_wait_async e.shutdown_r],
        exit := some e.shutdown_r } := by
  have hw2 : ¬ e.wait_r < 0 := not_lt.mpr hw
  simp only [VfsDispatcher.LoopIter, hw2, hs, if_false, if_true, ne_eq, not_false_eq_true]

theorem LoopIter_wait_failed (k : Consts) (d : VfsDispatcher) (e : LoopEnv)
    (hw : e.wait_r < 0) :
    VfsDispatcher.LoopIter k d e = some { d := d, events := [], exit := some k.MX_OK } := by
  simp only [VfsDispatcher.LoopIter, hw, if_true]

theorem shutdownWake_spec (k : Consts) (p : Pool) (e : LoopEnv)
    (hrun : 0 < p.running) (hwaits : p.d.shutdown_waits = 1)
    (hw : 0 ≤ e.wait_r) (hs : e.packet.observed &&& k.MX_EVENT_SIGNALED ≠ 0)
    (hre : e.shutdown_r = k.MX_OK) :
    p.shutdownWake k e = some { d := p.d, running := p.running - 1 } := by
  obtain ⟨d, r⟩ := p
  obtain ⟨a, b, c, dd, ee, f⟩ := d
  simp only at hwaits hrun
  subst hwaits
  have hpre : 0 < r ∧ 0 < 1 ∧ 0 ≤ e.wait_r ∧
      e.packet.observed &&& k.MX_EVENT_SIGNALED ≠ 0 := ⟨hrun, by omega, hw, hs⟩
  simp only [Pool.shutdownWake]
  rw [if_pos hpre, LoopIter_shutdown k _ e hw hs]
  simp [hre]

theorem shutdownAll_spec (k : Consts) (es : List LoopEnv) (p : Pool)
    (hrun : p.running = es.length) (hwaits : p.d.shutdown_waits = 1)
    (hes : ∀ e ∈ es, 0 ≤ e.wait_r ∧ e.packet.observed &&& k.MX_EVENT_SIGNALED ≠ 0 ∧
      e.shutdown_r = k.MX_OK) :
    Pool.shutdownAll k p es = some { d := p.d, running := 0 } := by
  induction es generalizing p with
  | nil =>
    obtain ⟨d, r⟩ := p
    simp only [List.length_nil] at hrun
    subst hrun
    rfl
  | cons e es ih =>
    obtain ⟨h1, h2, h3⟩ := hes e (List.mem_cons_self _ _)
    simp only [List.length_cons] at hrun
    rw [Pool.shutdownAll, shutdownWake_spec k p e (by omega) hwaits h1 h2 h3]
    exact ih { d := p.d, running := p.running - 1 } (by simp only; omega) hwaits
      (fun x hx => hes x (List.mem_cons_of_mem _ hx))

theorem Create_spec (k : Consts) (P : Nat) (ce : CreateEnv) (d : VfsDispatcher)
    (hres : k.MX_ERR_NO_RESOURCES ≠ k.MX_OK)
    (hc : (VfsDispatcher.Create k P ce).1 = some d) :
    d.shutdown_waits = 1 ∧ d.n_threads_ = P ∧ d.pool_size_ = P ∧ d.handlers_ = [] ∧
    d.port_ = [] := by
  unfold VfsDispatcher.Create at hc
  split at hc
  · cases hc
  · simp only at hc
    split at hc
    · cases hc
    · split at hc
      · cases hc
      · split at hc
        · cases hc
        · split at hc
          · cases hc
          · split at hc
            · cases hc
            · rename_i hok
              simp only [ne_eq, not_not] at hok
              simp only [Option.some.injEq] at hc
              rw [Start_of_not_started _ _ _ _ rfl] at hc hok
              obtain ⟨j, hj, hpre, hd, hcase⟩ := spawn_spec k "VFS Dispatcher".toList
                ce.thrd_create P { VfsDispatcher.new P with shutdown_waits := 1 }
              simp only [VfsDispatcher.new] at hc hok hd hcase
              rcases hcase with ⟨h1, _, _⟩ | ⟨_, _, h3, _⟩
              · rw [hd] at hc
                subst hc
                simp [h1]
              · rw [h3] at hok
                exact absurd hok hres


/-- C10: a pass of the loop that is woken by the shutdown event re-registers
a one-shot wait on the event and leaves `Loop` with the status of that
registration; it calls no callback and no close callback and changes neither
the registry nor the waits of the Handlers.  So when every re-registration
succeeds and one wait of the event is pending, as `Create` leaves it with all
`pool_size_` threads started, one worker after the other is woken and leaves,
each leaving one wait pending again, until no worker runs.  A pass whose
`port_.wait` fails leaves `Loop` at once with `MX_OK` and changes nothing. -/
theorem C10_shutdown_propagates (k : Consts) (d : VfsDispatcher) (e : LoopEnv) :
    (0 ≤ e.wait_r → e.packet.observed &&& k.MX_EVENT_SIGNALED ≠ 0 →
      ∃ st, VfsDispatcher.LoopIter k d e = some st ∧ st.exit = some e.shutdown_r ∧
        st.events = [Event.shutdown_wait_async e.shutdown_r] ∧
        (∀ key, nExecuteCallback key st.events = 0 ∧
                nExecuteCloseCallback key st.events = 0 ∧ nHandleClose key st.events = 0) ∧
        st.d.handlers_ = d.handlers_ ∧ st.d.port_ = d.port_ ∧
        st.d.n_threads_ = d.n_threads_ ∧
        st.d.shutdown_waits =
          d.shutdown_waits + (if e.shutdown_r = k.MX_OK then 1 else 0)) ∧
    (∀ es : List LoopEnv, d.shutdown_waits = 1 →
      (∀ x ∈ es, 0 ≤ x.wait_r ∧ x.packet.observed &&& k.MX_EVENT_SIGNALED ≠ 0 ∧
        x.shutdown_r = k.MX_OK) →
      Pool.shutdownAll k { d := d, running := es.length } es =
        some { d := d, running := 0 }) ∧
    (k.MX_ERR_NO_RESOURCES ≠ k.MX_OK → ∀ P ce d1, (VfsDispatcher.Create k P ce).1 = some d1 →
      d1.shutdown_waits = 1 ∧ d1.n_threads_ = P) ∧
    (e.wait_r < 0 →
      VfsDispatcher.LoopIter k d e = some { d := d, events := [], exit := some k.MX_OK }) := by
  refine ⟨?_, ?_, ?_, LoopIter_wait_failed k d e⟩
  · intro hw hs
    refine ⟨_, LoopIter_shutdown k d e hw hs, rfl, rfl, ?_, ?_, ?_, ?_, ?_⟩
    · intro key
      simp [nExecuteCallback, callbackResults, nExecuteCloseCallback, nHandleClose]
    all_goals by_cases hre : e.shutdown_r = k.MX_OK <;> simp [hre]
  · intro es hwaits hes
    exact shutdownAll_spec k es { d := d, running := es.length } rfl hwaits hes
  · intro hres P ce d1 hc
    have := Create_spec k P ce d1 hres hc
    exact ⟨this.1, this.2.1⟩

/-- C10 (witness): `Create` starts a pool of two threads; two shutdown
wake-ups make both workers leave and one wait of the event stays pending. -/
theorem C10_shutdown_propagates_witness :
    (VfsDispatcher.Create magenta 2 exCreateEnv).1 = some exCreated ∧
    exCreated.shutdown_waits = 1 ∧
    Pool.shutdownAll magenta { d := exCreated, running := 2 } [exShutdown, exShutdown] =
      some { d := exCreated, running := 0 } :=
  ⟨by decide, by decide,
   (C10_shutdown_propagates magenta exCreated exShutdown).2.1 [exShutdown, exShutdown]
     (by decide) (by decide)⟩

end fs

/-! The extents of pinned memory. -/

namespace PinnedMemoryObject

/-- The mask `~(2 ^ s - 1)` of 64 bits keeps the multiples of `2 ^ s`. -/
theorem and_not_low_mask (s v : Nat) (hs : s ≤ 64) (hv : v < 2 ^ 64) :
    v &&& (2 ^ 64 - 1 - (2 ^ s - 1)) = 2 ^ s * (v / 2 ^ s) := by
  have hpos : 0 < 2 ^ s := Nat.two_pow_pos s
  have hle : 2 ^ s ≤ 2 ^ 64 := Nat.pow_le_pow_right (by decide) hs
  have hm : 2 ^ 64 - 1 - (2 ^ s - 1) = 2 ^ 64 - ((2 ^ s - 1) + 1) := by omega
  have hlt : 2 ^ s - 1 < 2 ^ 64 := by omega
  have hshift : 2 ^ s * (v / 2 ^ s) = (v >>> s) <<< s := by
    rw [Nat.shiftLeft_eq, Nat.shiftRight_eq_div_pow, Nat.mul_comm]
  rw [hm, hshift]
  apply Nat.eq_of_testBit_eq
  intro i
  rw [Nat.testBit_and, Nat.testBit_two_pow_sub_succ hlt, Nat.testBit_two_pow_sub_one,
    Nat.testBit_shiftLeft, Nat.testBit_shiftRight]
  by_cases h1 : i < s
  · have : ¬ i ≥ s := by omega
    simp [h1, this]
  · have h2 : i ≥ s := by omega
    have h3 : s + (i - s) = i := by omega
    by_cases h4 : i < 64
    · simp [h1, h2, h3, h4]
    · have : v < 2 ^ i := lt_of_lt_of_le hv (Nat.pow_le_pow_right (by decide) (by omega))
      simp [h1, h2, h3, h4, Nat.testBit_lt_two_pow this]

/-- An extent whose `val_` is a page-aligned address plus a number below the
page size decodes into that address and that number plus one. -/
theorem base_pages_of_parts (k : Consts) (s a b : Nat) (hs : s < 64)
    (hps : k.PAGE_SIZE = 2 ^ s) (hb : b < 2 ^ s) (hv : 2 ^ s * a + b < 2 ^ 64) :
    Extent.base k { val_ := 2 ^ s * a + b } = 2 ^ s * a ∧
    Extent.pages k { val_ := 2 ^ s * a + b } = b + 1 := by
  have hpos : 0 < 2 ^ s := Nat.two_pow_pos s
  have hle : 2 ^ s < 2 ^ 64 := Nat.pow_lt_pow_right (by decide) hs
  constructor
  · simp only [Extent.base, hps]
    rw [and_not_low_mask s _ (by omega) hv, Nat.mul_add_div hpos, Nat.div_eq_of_lt hb,
      Nat.add_zero]
  · simp only [Extent.pages, hps]
    rw [Nat.and_pow_two_sub_one_eq_mod, Nat.mul_add_mod, Nat.mod_eq_of_lt hb,
      Nat.mod_eq_of_lt (by omega)]

/-- The constructor packs a page-aligned base and a page count between 1 and
`PAGE_SIZE` without loss. -/
theorem Extent_new_roundtrip (k : Consts) (s base pages : Nat) (hs : s < 64)
    (hps : k.PAGE_SIZE = 2 ^ s) (hbase : base < 2 ^ 64) (hal : k.PAGE_SIZE ∣ base)
    (h1 : 0 < pages) (h2 : pages ≤ k.PAGE_SIZE) :
    ∃ e, Extent.new k base pages = some e ∧ e.val_ = base + (pages - 1) ∧
      e.val_ < 2 ^ 64 ∧ e.base k = base ∧ e.pages k = pages := by
  obtain ⟨a, ha⟩ := hal
  rw [hps] at ha h2
  have hpos : 0 < 2 ^ s := Nat.two_pow_pos s
  have hb : pages - 1 < 2 ^ s := by omega
  have hsplit : (2 : Nat) ^ 64 = 2 ^ s * 2 ^ (64 - s) := by
    rw [← Nat.pow_add]; congr 1; omega
  have ha2 : a < 2 ^ (64 - s) := by
    rw [ha, hsplit] at hbase
    exact Nat.lt_of_mul_lt_mul_left hbase
  have hv : 2 ^ s * a + (pages - 1) < 2 ^ 64 := by
    have : 2 ^ s * (a + 1) ≤ 2 ^ s * 2 ^ (64 - s) := Nat.mul_le_mul_left _ ha2
    rw [Nat.mul_add, Nat.mul_one, ← hsplit] at this
    omega
  have hval : base ||| (pages - 1) = 2 ^ s * a + (pages - 1) := by
    rw [ha]; exact (Nat.mul_add_lt_is_or hb a).symm
  have hdec := base_pages_of_parts k s a (pages - 1) hs hps hb hv
  refine ⟨{ val_ := base ||| (pages - 1) }, ?_, ?_, ?_, ?_, ?_⟩
  · simp [Extent.new, h1, hps, h2]
  · show base ||| (pages - 1) = base + (pages - 1)
    rw [hval, ha]
  · show base ||| (pages - 1) < 2 ^ 64
    rw [hval]; exact hv
  · rw [hval, hdec.1, ha]
  · rw [hval, hdec.2]; omega

/-- The member function `extend` does what is expected of it as long as the
sum `pages() + num_pages` stays below `2 ^ 64`. -/
theorem Extent_extend_no_wrap (k : Consts) (s base pages n : Nat) (e : Extent) (hs : s < 64)
    (hps : k.PAGE_SIZE = 2 ^ s) (hbase : base < 2 ^ 64) (hal : k.PAGE_SIZE ∣ base)
    (h1 : 0 < pages) (h2 : pages ≤ k.PAGE_SIZE)
    (he : Extent.new k base pages = some e) (hn : pages + n < 2 ^ 64) :
    (pages + n > k.PAGE_SIZE → e.extend k n = (e, k.MX_ERR_OUT_OF_RANGE)) ∧
    (pages + n ≤ k.PAGE_SIZE →
      (e.extend k n).2 = k.MX_OK ∧ (e.extend k n).1.base k = base ∧
      (e.extend k n).1.pages k = pages + n) := by
  obtain ⟨e2, he2, hval, hlt, hb, hp⟩ := Extent_new_roundtrip k s base pages hs hps hbase hal h1 h2
  rw [he] at he2
  cases he2
  constructor
  · intro hgt
    simp only [Extent.extend, hp, Nat.mod_eq_of_lt hn]
    rw [if_pos hgt]
  · intro hle
    have hnot : ¬ (pages + n > k.PAGE_SIZE) := by omega
    simp only [Extent.extend, hp, Nat.mod_eq_of_lt hn]
    rw [if_neg hnot]
    obtain ⟨a, ha⟩ := hal
    rw [hps] at ha hle
    have hpos : 0 < 2 ^ s := Nat.two_pow_pos s
    have hsplit : (2 : Nat) ^ 64 = 2 ^ s * 2 ^ (64 - s) := by
      rw [← Nat.pow_add]; congr 1; omega
    have ha2 : a < 2 ^ (64 - s) := by
      rw [ha, hsplit] at hbase
      exact Nat.lt_of_mul_lt_mul_left hbase
    have hbound : 2 ^ s * a + 2 ^ s ≤ 2 ^ 64 := by
      have : 2 ^ s * (a + 1) ≤ 2 ^ s * 2 ^ (64 - s) := Nat.mul_le_mul_left _ ha2
      rw [Nat.mul_add, Nat.mul_one, ← hsplit] at this
      exact this
    have hnew : (e.val_ + n) % 2 ^ 64 = 2 ^ s * a + (pages - 1 + n) := by
      rw [hval, ha, Nat.mod_eq_of_lt (by omega)]
      omega
    have hdec := base_pages_of_parts k s a (pages - 1 + n) hs hps (by omega) (by omega)
    refine ⟨rfl, ?_, ?_⟩
    · simp only [hnew, hdec.1, ha]
    · simp only [hnew, hdec.2]; omega

/-- The defect: whenever the sum `pages() + num_pages` reaches `2 ^ 64`, for a
`num_pages` that is a `size_t`, the range test passes and `extend` returns
`MX_OK`. -/
theorem Extent_extend_wrap (k : Consts) (s base pages n : Nat) (e : Extent) (hs : s < 64)
    (hps : k.PAGE_SIZE = 2 ^ s) (hbase : base < 2 ^ 64) (hal : k.PAGE_SIZE ∣ base)
    (h1 : 0 < pages) (h2 : pages ≤ k.PAGE_SIZE)
    (he : Extent.new k base pages = some e) (hn : n < 2 ^ 64) (hw : 2 ^ 64 ≤ pages + n) :
    e.extend k n = ({ val_ := (e.val_ + n) % 2 ^ 64 }, k.MX_OK) := by
  obtain ⟨e2, he2, hval, hlt, hb, hp⟩ := Extent_new_roundtrip k s base pages hs hps hbase hal h1 h2
  rw [he] at he2
  cases he2
  have hmod : (pages + n) % 2 ^ 64 = pages + n - 2 ^ 64 := by
    rw [Nat.mod_eq_sub_mod hw, Nat.mod_eq_of_lt (by omega)]
  have hnot : ¬ ((pages + n) % 2 ^ 64 > k.PAGE_SIZE) := by
    rw [hmod]; omega
  simp only [Extent.extend, hp]
  rw [if_neg hnot]

/-- C11 (the code at the failing input): the extent of one page at address
4096 is extended by `2 ^ 64 - 1` pages.  The number of pages after the
extension would be above `PAGE_SIZE`, yet the sum wraps around to 0, the test
passes and `extend` returns `MX_OK`; `val_` wraps to 4095, so `base()` has
changed from 4096 to 0 and `pages()` is 4096. -/
theorem C11_extend_wraps_at_failing_input :
    Extent.new magenta 4096 1 = some exExtent ∧
    exExtent.base magenta = 4096 ∧ exExtent.pages magenta = 1 ∧
    exExtent.pages magenta + exHuge > magenta.PAGE_SIZE ∧
    exExtent.extend magenta exHuge = ({ val_ := 4095 }, magenta.MX_OK) ∧
    (exExtent.extend magenta exHuge).1.base magenta = 0 ∧
    (exExtent.extend magenta exHuge).1.pages magenta = 4096 := by
  decide

end PinnedMemoryObject

/-! Configuration space access through the ports. -/

namespace PCI

theorem width_mask_of_lt (width : Nat) (hw : width < 32) :
    width_mask (2 ^ width) = 2 ^ width - 1 := by
  have hpos : 0 < 2 ^ width := Nat.two_pow_pos width
  have hlt : 2 ^ width < 2 ^ 32 := Nat.pow_lt_pow_right (by decide) hw
  unfold width_mask
  rw [show 2 ^ width + 2 ^ 32 - 1 = (2 ^ width - 1) + 2 ^ 32 by omega, Nat.add_mod_right,
    Nat.mod_eq_of_lt (by omega)]

theorem shift_le (addr : Nat) : (addr &&& 0x3) * 8 ≤ 24 := by
  have : addr &&& 0x3 ≤ 3 := Nat.and_le_right
  omega

/-- For a width below 32 that the test accepts, `PioCfgRead` stores bits
`[shift, shift + width)` of the value read, a number below `2 ^ width`. -/
theorem PioCfgRead_valid (k : Consts) (tmp_val addr width : Nat) (hw : width < 32)
    (hsum : (addr &&& 0x3) * 8 + width ≤ 32) :
    PioCfgRead k shl_cxx tmp_val addr width =
      some (k.MX_OK, some ((tmp_val / 2 ^ ((addr &&& 0x3) * 8)) % 2 ^ width),
            [PortOp.outpd kPciConfigAddr addr, PortOp.inpd kPciConfigData tmp_val]) ∧
    (tmp_val / 2 ^ ((addr &&& 0x3) * 8)) % 2 ^ width < 2 ^ width := by
  have hnot : ¬ ((addr &&& 0x3) * 8 + width) % 2 ^ 64 > 32 := by
    rw [Nat.mod_eq_of_lt (by omega)]; omega
  constructor
  · simp only [PioCfgRead, shl_cxx, hw, if_true]
    rw [if_neg hnot, width_mask_of_lt width hw, Nat.and_pow_two_sub_one_eq_mod,
      Nat.shiftRight_eq_div_pow]
  · exact Nat.mod_lt _ (Nat.two_pow_pos width)

/-- For a width below 32 that the test accepts, the value `PioCfgWrite`
writes back has the low `width` bits of `val` in bits
`[shift, shift + width)` and the bits of the value read everywhere else. -/
theorem PioCfgWrite_valid (k : Consts) (tmp_val addr val width : Nat) (htmp : tmp_val < 2 ^ 32)
    (hw : width < 32) (hsum : (addr &&& 0x3) * 8 + width ≤ 32) :
    ∃ out, PioCfgWrite k shl_cxx tmp_val addr val width =
        some (k.MX_OK, [PortOp.outpd kPciConfigAddr addr, PortOp.inpd kPciConfigData tmp_val,
                        PortOp.outpd kPciConfigData out]) ∧
      out < 2 ^ 32 ∧
      ∀ i, out.testBit i =
        if (addr &&& 0x3) * 8 ≤ i ∧ i < (addr &&& 0x3) * 8 + width
        then val.testBit (i - (addr &&& 0x3) * 8) else tmp_val.testBit i := by
  have hnot : ¬ ((addr &&& 0x3) * 8 + width) % 2 ^ 64 > 32 := by
    rw [Nat.mod_eq_of_lt (by omega)]; omega
  generalize hsh : (addr &&& 0x3) * 8 = sh at hsum hnot
  have hbits : ∀ i,
      ((tmp_val &&& (2 ^ 32 - 1 - ((2 ^ width - 1) <<< sh) % 2 ^ 32)) |||
        (((val &&& (2 ^ width - 1)) <<< sh) % 2 ^ 32)).testBit i =
      if sh ≤ i ∧ i < sh + width then val.testBit (i - sh) else tmp_val.testBit i := by
    intro i
    have hwm : ((2 ^ width - 1) <<< sh) % 2 ^ 32 < 2 ^ 32 := Nat.mod_lt _ (Nat.two_pow_pos 32)
    have hm : 2 ^ 32 - 1 - ((2 ^ width - 1) <<< sh) % 2 ^ 32 =
        2 ^ 32 - (((2 ^ width - 1) <<< sh) % 2 ^ 32 + 1) := by omega
    rw [hm, Nat.testBit_or, Nat.testBit_and, Nat.testBit_two_pow_sub_succ hwm,
      Nat.testBit_mod_two_pow, Nat.testBit_mod_two_pow, Nat.testBit_shiftLeft,
      Nat.testBit_shiftLeft, Nat.testBit_and, Nat.testBit_two_pow_sub_one]
    by_cases h32 : i < 32
    · by_cases hlo : sh ≤ i
      · by_cases hhi : i - sh < width
        · have : i < sh + width := by omega
          simp [h32, hlo, hhi, this]
        · have : ¬ i < sh + width := by omega
          simp [h32, hlo, hhi, this]
      · have : ¬ (sh ≤ i ∧ i < sh + width) := by omega
        have hlo2 : ¬ i ≥ sh := hlo
        simp [h32, hlo2, this]
    · have : ¬ (sh ≤ i ∧ i < sh + width) := by omega
      have htb : tmp_val.testBit i = false :=
        Nat.testBit_lt_two_pow
          (lt_of_lt_of_le htmp (Nat.pow_le_pow_right (by decide) (by omega)))
      simp [h32, this, htb]
  refine ⟨(tmp_val &&& (2 ^ 32 - 1 - ((2 ^ width - 1) <<< sh) % 2 ^ 32)) |||
        (((val &&& (2 ^ width - 1)) <<< sh) % 2 ^ 32), ?_, ?_, hbits⟩
  · simp only [PioCfgWrite, shl_cxx, hw, if_true, hsh]
    rw [if_neg hnot, width_mask_of_lt width hw]
  · apply Nat.lt_pow_two_of_testBit
    intro i hi
    rw [hbits i]
    have : ¬ (sh ≤ i ∧ i < sh + width) := by omega
    rw [if_neg this]
    exact Nat.testBit_lt_two_pow
      (lt_of_lt_of_le htmp (Nat.pow_le_pow_right (by decide) hi))

/-- An input whose sum `shift + width` is above 32 and below `2 ^ 64` is
rejected without any port access. -/
theorem PioCfg_rejected (k : Consts) (shl : Nat → Option Nat) (tmp_val addr val width : Nat)
    (hgt : (addr &&& 0x3) * 8 + width > 32) (hlt : (addr &&& 0x3) * 8 + width < 2 ^ 64) :
    PioCfgWrite k shl tmp_val addr val width = some (k.MX_ERR_INVALID_ARGS, []) ∧
    PioCfgRead k shl tmp_val addr width = some (k.MX_ERR_INVALID_ARGS, none, []) := by
  have hyes : ((addr &&& 0x3) * 8 + width) % 2 ^ 64 > 32 := by
    rw [Nat.mod_eq_of_lt hlt]; exact hgt
  constructor
  · simp only [PioCfgWrite]; rw [if_pos hyes]
  · simp only [PioCfgRead]; rw [if_pos hyes]

/-- C12 (the code at the failing input): a write of 32 bits at an aligned
address, which the test `shift + width > 32` accepts.  The mask is
`(1 << 32) - 1`, a shift of a 32-bit `int` by 32: the language leaves the call
undefined, and with the shift of x86 the mask is 0, so the value written back
is the value read, with no bit of `val` in it, and a read of 32 bits returns
0.  A width of `2 ^ 64 - 8` at shift 8 makes the sum wrap around to 0: the
input is not rejected, although `shift + width` is above 32. -/
theorem C12_width_32_at_failing_input :
    PioCfgWrite magenta shl_cxx 0xAABBCCDD 0x80000000 0x12345678 32 = none ∧
    PioCfgWrite magenta shl_x86 0xAABBCCDD 0x80000000 0x12345678 32 =
      some (magenta.MX_OK,
            [PortOp.outpd kPciConfigAddr 0x80000000, PortOp.inpd kPciConfigData 0xAABBCCDD,
             PortOp.outpd kPciConfigData 0xAABBCCDD]) ∧
    PioCfgRead magenta shl_cxx 0xAABBCCDD 0x80000000 32 = none ∧
    PioCfgRead magenta shl_x86 0xAABBCCDD 0x80000000 32 =
      some (magenta.MX_OK, some 0,
            [PortOp.outpd kPciConfigAddr 0x80000000, PortOp.inpd kPciConfigData 0xAABBCCDD]) ∧
    (0x80000001 &&& 0x3) * 8 + 18446744073709551608 > 32 ∧
    PioCfgWrite magenta shl_cxx 0xAABBCCDD 0x80000001 0x12345678 18446744073709551608 = none ∧
    (PioCfgWrite magenta shl_x86 0xAABBCCDD 0x80000001 0x12345678 18446744073709551608).map
      Prod.fst = some magenta.MX_OK := by
  decide

end PCI
